import Mathlib

/-!
Shallow embedding of `MyStrategy.py` (a CodeWars round strategy): the unit
tracker with its grid index and BFS clustering, the cooldown-gated action
scheduler, the vision model and the two decision makers.  Python floats are
modelled as rationals, Python dicts as association lists that keep insertion
order, and fallible Python code (KeyError, ValueError, IndexError) as
`Option`-returning functions where `none` marks the raised exception.
-/

namespace CodeWars

/-- Modelled from the spec: `model/VehicleType.py` is not under `src/`; the
game has exactly five unit kinds with distinct profiles. -/
inductive VehicleType
  | arrv
  | fighter
  | helicopter
  | ifv
  | tank
deriving DecidableEq

/-- Mirrors `GROUND_TYPES = {ARRV, IFV, TANK}`. -/
def GROUND_TYPES : List VehicleType := [.arrv, .ifv, .tank]

/-- Mirrors `AERIAL_TYPES = {FIGHTER, HELICOPTER}`. -/
def AERIAL_TYPES : List VehicleType := [.fighter, .helicopter]

/-- Modelled from the spec: `model/TerrainType.py` is not under `src/`;
terrain is an enum tag. -/
def PLAIN : Nat := 0

/-- Modelled from the spec: swamp terrain tag. -/
def SWAMP : Nat := 1

/-- Modelled from the spec: forest terrain tag. -/
def FOREST : Nat := 2

/-- Modelled from the spec: `model/WeatherType.py` is not under `src/`;
weather is an enum tag. -/
def CLEAR : Nat := 0

/-- Modelled from the spec: cloud weather tag. -/
def CLOUD : Nat := 1

/-- Modelled from the spec: rain weather tag. -/
def RAIN : Nat := 2

/-- Modelled from the spec: `model/Vehicle.py` is not under `src/`.  The
fields are exactly the ones `MyStrategy.py` reads or writes; `vtype` stands
for the Python attribute `type`. -/
structure Vehicle where
  id : Nat
  player_id : Nat
  x : ℚ
  y : ℚ
  durability : Nat
  groups : List Nat
  selected : Bool
  remaining_attack_cooldown_ticks : Nat
  vtype : VehicleType
  vision_range : ℚ
  radius : ℚ
deriving DecidableEq

/-- Modelled from the spec: the game model's squared-distance helper
`unit.get_squared_distance_to(x, y)`. -/
def Vehicle.get_squared_distance_to (v : Vehicle) (x y : ℚ) : ℚ :=
  (v.x - x) ^ 2 + (v.y - y) ^ 2

/-- Modelled from the spec: `unit.get_squared_distance_to_unit(other)`. -/
def Vehicle.get_squared_distance_to_unit (v u : Vehicle) : ℚ :=
  v.get_squared_distance_to u.x u.y

/-- Modelled from the spec: `model/VehicleUpdate.py` is not under `src/`;
an attribute delta carried by a snapshot, keyed by unit id. -/
structure VehicleUpdate where
  id : Nat
  x : ℚ
  y : ℚ
  durability : Nat
  groups : List Nat
  selected : Bool
  remaining_attack_cooldown_ticks : Nat
deriving DecidableEq

/-- Mirrors `Cluster = NamedTuple('Cluster', [('vehicles', ...), ('x', ...), ('y', ...)])`. -/
structure Cluster where
  vehicles : List Vehicle
  x : ℚ
  y : ℚ
deriving DecidableEq

/-- Mirrors `UnitTracker.CELL_COUNT = 64`. -/
def CELL_COUNT : Nat := 64

/-- Mirrors `UnitTracker.CELL_SIZE = 1024 / CELL_COUNT`. -/
def CELL_SIZE : ℚ := 1024 / 64

/-- Mirrors `UnitTracker.CELL_SIZE_SQUARED = CELL_SIZE * CELL_SIZE`. -/
def CELL_SIZE_SQUARED : ℚ := CELL_SIZE * CELL_SIZE

/-- Mirrors `UnitTracker.DELTA = 0.001`. -/
def DELTA : ℚ := 1 / 1000

/-- Mirrors `UnitTracker`'s mutable state: `vehicles` (dict id → Vehicle, as
an insertion-ordered list with unique ids), `cells` (dict cell → dict id →
Vehicle, flattened to insertion-ordered (cell, id) entries; positions are
read back through the unit table, which models Python's object aliasing),
`clusters` and `moving_vehicles`. -/
structure TrackerState where
  vehicles : List Vehicle
  cells : List ((Int × Int) × Nat)
  clusters : List Cluster
  moving_vehicles : List Nat
deriving DecidableEq

/-- Dict lookup `self.vehicles[id]` (as an option instead of KeyError). -/
def TrackerState.find? (s : TrackerState) (id : Nat) : Option Vehicle :=
  s.vehicles.find? (fun v => v.id == id)

/-- Dict assignment `self.vehicles[vehicle.id] = vehicle`: replaces the value
in place when the key exists, appends otherwise. -/
def dictInsert (vs : List Vehicle) (v : Vehicle) : List Vehicle :=
  if vs.any (fun w => w.id == v.id) then vs.map (fun w => if w.id == v.id then v else w)
  else vs ++ [v]

/-- Dict assignment `self.get_cell(vehicle)[vehicle.id] = vehicle` on the
flattened cell entries (a dict never holds a duplicate key). -/
def cellInsert (cs : List ((Int × Int) × Nat)) (c : Int × Int) (id : Nat) :
    List ((Int × Int) × Nat) :=
  if (c, id) ∈ cs then cs else cs ++ [(c, id)]

/-- Dict removal `self.get_cell(vehicle).pop(vehicle.id, None)` on the
flattened cell entries. -/
def cellPop (cs : List ((Int × Int) × Nat)) (c : Int × Int) (id : Nat) :
    List ((Int × Int) × Nat) :=
  cs.filter (fun e => !(e.1.1 == c.1 && e.1.2 == c.2 && e.2 == id))

/-- Mirrors `UnitTracker.get_cell_index`: `int(x // CELL_SIZE), int(y // CELL_SIZE)`
(Python float floor division, hence mathematical floor). -/
def get_cell_index (v : Vehicle) : Int × Int :=
  (⌊v.x / CELL_SIZE⌋, ⌊v.y / CELL_SIZE⌋)

/-- Mirrors `UnitTracker.add_new_vehicles`: insert each newly visible unit in
the table and, when opponent-owned, in its grid cell. -/
def add_new_vehicles (opp : Nat) (s : TrackerState) (news : List Vehicle) : TrackerState :=
  news.foldl
    (fun t v =>
      { t with
        vehicles := dictInsert t.vehicles v
        cells :=
          if v.player_id == opp then cellInsert t.cells (get_cell_index v) v.id else t.cells })
    s

/-- The in-place field overwrite performed by the `update_vehicles` loop on
the found vehicle object. -/
def updated_vehicle (v : Vehicle) (u : VehicleUpdate) : Vehicle :=
  { v with
    x := u.x, y := u.y, durability := u.durability, groups := u.groups,
    selected := u.selected,
    remaining_attack_cooldown_ticks := u.remaining_attack_cooldown_ticks }

/-- One iteration of the `update_vehicles` loop body; `none` models the
KeyError raised when the update references an unknown unit id.  The loop
first pops the unit from its old grid cell (`cellPop`, written out in both
branches of the durability test); on a terminal update it drops the unit from
the table, otherwise it overwrites the unit's fields, records it as moving
when it moved by more than `DELTA`, and, when opponent-owned, re-inserts it
into the grid cell of its new position. -/
def apply_update (opp : Nat) (s : TrackerState) (u : VehicleUpdate) : Option TrackerState :=
  match s.find? u.id with
  | none => none
  | some v =>
    if u.durability == 0 then
      some { s with
        vehicles := s.vehicles.filter (fun w => !(w.id == u.id))
        cells := cellPop s.cells (get_cell_index v) v.id }
    else
      some { s with
        vehicles := s.vehicles.map (fun w => if w.id == u.id then updated_vehicle v u else w)
        cells :=
          if (updated_vehicle v u).player_id == opp then
            cellInsert (cellPop s.cells (get_cell_index v) v.id)
              (get_cell_index (updated_vehicle v u)) (updated_vehicle v u).id
          else cellPop s.cells (get_cell_index v) v.id
        moving_vehicles :=
          if (decide (DELTA < |v.x - u.x|) || decide (DELTA < |v.y - u.y|)) &&
              !(s.moving_vehicles.contains v.id) then
            s.moving_vehicles ++ [v.id]
          else s.moving_vehicles }

/-- Mirrors `UnitTracker.update_vehicles`: clear `moving_vehicles`, then fold
the updates in snapshot order. -/
def update_vehicles (opp : Nat) (s : TrackerState) (ups : List VehicleUpdate) :
    Option TrackerState :=
  ups.foldl (fun acc u => acc.bind (fun t => apply_update opp t u))
    (some { s with moving_vehicles := [] })

/-- One world snapshot: `world.new_vehicles` and `world.vehicle_updates`. -/
structure Snapshot where
  new_vehicles : List Vehicle
  vehicle_updates : List VehicleUpdate
deriving DecidableEq

/-- The delta-application part of `UnitTracker.move`: `add_new_vehicles()`
followed by `update_vehicles()`. -/
def apply_deltas (opp : Nat) (s : TrackerState) (snap : Snapshot) : Option TrackerState :=
  update_vehicles opp (add_new_vehicles opp s snap.new_vehicles) snap.vehicle_updates

/-- Applies a whole stream of snapshots tick by tick. -/
def apply_all (opp : Nat) : List Snapshot → TrackerState → Option TrackerState
  | [], s => some s
  | snap :: rest, s => (apply_deltas opp s snap).bind (apply_all opp rest)

/-- The tracker state built by `UnitTracker.__init__`. -/
def initState : TrackerState := ⟨[], [], [], []⟩

/-- Connector-contract well-formedness of one snapshot against the current
state: newly visible units carry fresh ids and positive durability (the game
never announces a destroyed unit as new). -/
def wf_snapshot (s : TrackerState) (snap : Snapshot) : Bool :=
  decide ((snap.new_vehicles.map (fun v => v.id)).Nodup) &&
    snap.new_vehicles.all (fun v => (s.find? v.id).isNone && !(v.durability == 0))

/-- Well-formedness of a snapshot stream along its own run. -/
def wf_run (opp : Nat) : List Snapshot → TrackerState → Bool
  | [], _ => true
  | snap :: rest, s =>
    wf_snapshot s snap &&
      (match apply_deltas opp s snap with
       | none => true
       | some s' => wf_run opp rest s')

/-- Ids currently present in the grid index. -/
def cell_ids (s : TrackerState) : List Nat := s.cells.map (fun e => e.2)

/-- The grid-index invariant: table ids are unique, grid ids are unique,
every grid entry is backed by a tracked opponent unit sitting at exactly that
cell, and every tracked opponent unit has its grid entry. -/
def GridInv (opp : Nat) (s : TrackerState) : Prop :=
  (s.vehicles.map (fun v => v.id)).Nodup ∧
    (cell_ids s).Nodup ∧
    (∀ e ∈ s.cells, ∃ v, s.find? e.2 = some v ∧ v.player_id = opp ∧ get_cell_index v = e.1) ∧
    (∀ v ∈ s.vehicles, v.player_id = opp → (get_cell_index v, v.id) ∈ s.cells)

/-- Liveness invariant: every tracked unit has positive durability. -/
def DurInv (s : TrackerState) : Prop := ∀ v ∈ s.vehicles, 0 < v.durability

/-- Mirrors `MyStrategy.__init__`'s scheduler state: the `action_queue` deque
(queued closures abstracted as values of `α`) and `next_action_tick`. -/
structure Scheduler (α : Type) where
  action_queue : List α
  next_action_tick : Nat
deriving DecidableEq

/-- Mirrors the scheduler part of `MyStrategy.move` and
`process_action_queue`: with a non-empty queue, release the front action when
`next_action_tick <= world.tick_index` and set `next_action_tick` to
`tick_index + 5`; otherwise release nothing and change nothing. -/
def scheduler_move (t : Nat) (s : Scheduler α) : Option α × Scheduler α :=
  match s.action_queue with
  | [] => (none, s)
  | a :: rest =>
    if s.next_action_tick ≤ t then (some a, ⟨rest, t + 5⟩) else (none, s)

/-- Runs the scheduler over a list of tick indices, collecting the released
actions in order. -/
def run_ticks (s : Scheduler α) : List Nat → List α × Scheduler α
  | [] => ([], s)
  | t :: ts =>
    match scheduler_move t s with
    | (none, s') => run_ticks s' ts
    | (some a, s') =>
      let r := run_ticks s' ts
      (a :: r.1, r.2)

/-- Modelled from the spec: the vision-factor constants of `model/Game.py`
(not under `src/`) that `MyStrategy.py` reads. -/
structure Game where
  forest_terrain_vision_factor : ℚ
  plain_terrain_vision_factor : ℚ
  swamp_terrain_vision_factor : ℚ
  clear_weather_vision_factor : ℚ
  cloud_weather_vision_factor : ℚ
  rain_weather_vision_factor : ℚ
deriving DecidableEq

/-- Mirrors `NuclearStrikeDecisionMaker.get_true_vehicle_vision_range`: look
up the 32-unit coarse cell; ground units scale base vision by the terrain
factor, all other (aerial) units by the weather factor, and an unrecognized
tag falls through to the unmodified base range. -/
def get_true_vehicle_vision_range (terrain weather : Int → Int → Nat) (game : Game)
    (v : Vehicle) : ℚ :=
  let i := ⌊v.x / 32⌋
  let j := ⌊v.y / 32⌋
  if v.vtype ∈ GROUND_TYPES then
    let t := terrain i j
    if t = FOREST then v.vision_range * game.forest_terrain_vision_factor
    else if t = PLAIN then v.vision_range * game.plain_terrain_vision_factor
    else if t = SWAMP then v.vision_range * game.swamp_terrain_vision_factor
    else v.vision_range
  else
    let w := weather i j
    if w = CLEAR then v.vision_range * game.clear_weather_vision_factor
    else if w = CLOUD then v.vision_range * game.cloud_weather_vision_factor
    else if w = RAIN then v.vision_range * game.rain_weather_vision_factor
    else v.vision_range

/-- The command descriptions captured by the scheduled closures of
`MyStrategy.select` / `scale` / `go` / `nuclear_strike`; `clear_and_select`
keeps the optional fields that are defaulted only at release time. -/
inductive Cmd
  | clear_and_select (vehicle_type : Option VehicleType) (left top right bottom : Option ℚ)
  | scale (x y factor : ℚ)
  | move_by (x y : ℚ) (max_speed : Option ℚ)
  | tactical_nuclear_strike (vehicle_id : Nat) (x y : ℚ)
deriving DecidableEq

/-- Mirrors `UnitTracker.my_vehicles`: the tracked units owned by `me`. -/
def my_vehicles (me : Nat) (s : TrackerState) : List Vehicle :=
  s.vehicles.filter (fun v => v.player_id == me)

/-- Mirrors `random.choice`: an arbitrary pick (supplied as an oracle index)
from a non-empty list; `none` models the IndexError raised on an empty
sequence. -/
def pyChoice (pick : Nat) (l : List α) : Option α :=
  if h : l.length = 0 then none
  else some (l.get ⟨pick % l.length, Nat.mod_lt _ (Nat.pos_of_ne_zero h)⟩)

/-- Mirrors `SpreadOutDecisionMaker.SQUARE_SIZE = 128.0`. -/
def SQUARE_SIZE : ℚ := 128

/-- Mirrors `SpreadOutDecisionMaker.move`: pick a random own unit, build the
128-unit square pointing inward from it, schedule a full `select` of the
square and a `scale` by 10 around the unit, and return `True`.  The result is
the scheduled command list paired with the returned flag; `none` models the
IndexError `random.choice` raises when no own unit exists. -/
def spread_out_move (pick : Nat) (me : Nat) (s : TrackerState) : Option (List Cmd × Bool) :=
  match pyChoice pick (my_vehicles me s) with
  | none => none
  | some v =>
    let lr : ℚ × ℚ := if v.x < 512 then (v.x, v.x + SQUARE_SIZE) else (v.x - SQUARE_SIZE, v.x)
    let tb : ℚ × ℚ := if v.y < 512 then (v.y, v.y + SQUARE_SIZE) else (v.y - SQUARE_SIZE, v.y)
    some
      ([Cmd.clear_and_select none (some lr.1) (some tb.1) (some lr.2) (some tb.2),
        Cmd.scale v.x v.y 10],
       true)

/-- Mirrors Python's `min(iterable, key=key)`: `none` on an empty iterable
(ValueError), otherwise the first element attaining the least key. -/
def pyMinBy [LinearOrder κ] (key : α → κ) : List α → Option α
  | [] => none
  | x :: xs => some (xs.foldl (fun best y => if key y < key best then y else best) x)

/-- Mirrors Python's `max(iterable, key=key)`: `none` on an empty iterable,
otherwise the first element attaining the greatest key. -/
def pyMaxBy [LinearOrder κ] (key : α → κ) : List α → Option α
  | [] => none
  | x :: xs => some (xs.foldl (fun best y => if key best < key y then y else best) x)

/-- Mirrors the reachability test
`get_true_vehicle_vision_range(vehicle) > vehicle.get_distance_to_unit(opponent)`
with the Euclidean distance compared through squares: for every effective
range `r`, `r > sqrt d` iff `0 ≤ r` and `d < r ^ 2` (see
`strike_reachable_iff_sqrt`). -/
def strike_reachable (terrain weather : Int → Int → Nat) (game : Game) (v u : Vehicle) : Bool :=
  let r := get_true_vehicle_vision_range terrain weather game v
  decide (0 ≤ r) && decide (v.get_squared_distance_to_unit u < r ^ 2)

/-- Mirrors the candidate loop of `NuclearStrikeDecisionMaker.move`: for each
own unit, the closest cluster by centroid, then the closest opponent unit in
that cluster, kept only when reachable.  The inner `none` branches model the
ValueError `min` would raise on an empty sequence (unreachable when clusters
are non-empty, which the caller checks). -/
def possible_strikes (terrain weather : Int → Int → Nat) (game : Game) (me : Nat)
    (s : TrackerState) : List (Vehicle × Vehicle × Cluster) :=
  (my_vehicles me s).filterMap (fun v =>
    match pyMinBy (fun cl => v.get_squared_distance_to cl.x cl.y) s.clusters with
    | none => none
    | some cluster =>
      match pyMinBy (fun u => v.get_squared_distance_to_unit u) cluster.vehicles with
      | none => none
      | some u =>
        if strike_reachable terrain weather game v u then some (v, u, cluster) else none)

/-- Mirrors the selection key
`(len(cluster.vehicles), -opponent.get_squared_distance_to(cluster.x, cluster.y))`
compared lexicographically (Python tuple comparison under `max`). -/
def strike_key (t : Vehicle × Vehicle × Cluster) : Lex (Nat × ℚ) :=
  toLex (t.2.2.vehicles.length, -(t.2.1.get_squared_distance_to t.2.2.x t.2.2.y))

/-- Mirrors `MyStrategy.select_vehicle` with default radius: a
`CLEAR_AND_SELECT` of the square of side `2 * radius` around the unit,
carrying the unit's type. -/
def select_vehicle_cmd (v : Vehicle) : Cmd :=
  Cmd.clear_and_select (some v.vtype) (some (v.x - v.radius)) (some (v.y - v.radius))
    (some (v.x + v.radius)) (some (v.y + v.radius))

/-- Mirrors `NuclearStrikeDecisionMaker.move`: decline unless the strike
cooldown is zero and a cluster exists; build the per-unit candidates; if any
is feasible, take the maximum under `strike_key` and schedule select, stop
(`go` by the zero vector) and the strike; `none` is the `False` return. -/
def nuclear_strike_move (terrain weather : Int → Int → Nat) (game : Game)
    (remaining_nuclear_strike_cooldown_ticks : Nat) (me : Nat) (s : TrackerState) :
    Option (List Cmd) :=
  if remaining_nuclear_strike_cooldown_ticks ≠ 0 then none
  else if s.clusters = [] then none
  else
    match pyMaxBy strike_key (possible_strikes terrain weather game me s) with
    | none => none
    | some t =>
      some
        [select_vehicle_cmd t.1, Cmd.move_by 0 0 none,
         Cmd.tactical_nuclear_strike t.1.id t.2.1.x t.2.1.y]

/-- Mirrors `product(SCAN_RANGE, SCAN_RANGE)` with `SCAN_RANGE = range(-1, 2)`,
in Python iteration order. -/
def SCAN_DELTAS : List (Int × Int) :=
  [(-1, -1), (-1, 0), (-1, 1), (0, -1), (0, 0), (0, 1), (1, -1), (1, 0), (1, 1)]

/-- Mirrors `self.cells[c].values()`: the vehicles of one grid cell in
insertion order, read through the unit table (Python aliases the objects). -/
def cell_vehicles (s : TrackerState) (c : Int × Int) : List Vehicle :=
  s.cells.filterMap (fun e => if e.1 = c then s.find? e.2 else none)

/-- Mirrors Python's `min` over a sequence of rationals: `none` on the empty
sequence (ValueError), else the least value. -/
def listMinQ : List ℚ → Option ℚ
  | [] => none
  | x :: xs => some (xs.foldl min x)

/-- Mirrors `UnitTracker.get_minimum_squared_distance`: the least squared
distance over the product of the two cells' member lists. -/
def get_minimum_squared_distance (members : (Int × Int) → List Vehicle) (c d : Int × Int) :
    Option ℚ :=
  listMinQ ((List.product (members c) (members d)).map
    (fun p => p.1.get_squared_distance_to_unit p.2))

/-- The BFS merge guard
`get_minimum_squared_distance(i, j, next_i, next_j) < CELL_SIZE_SQUARED`. -/
def min_distance_lt (members : (Int × Int) → List Vehicle) (c d : Int × Int) : Bool :=
  match get_minimum_squared_distance members c d with
  | some q => decide (q < CELL_SIZE_SQUARED)
  | none => false

/-- One neighbour probe of the `bfs` scan loop: when the probed cell is still
available and the merge guard passes, move it from the available set to the
back of the queue. -/
def scanStep (members : (Int × Int) → List Vehicle) (c : Int × Int)
    (st : List (Int × Int) × List (Int × Int)) (d : Int × Int) :
    List (Int × Int) × List (Int × Int) :=
  if (c.1 + d.1, c.2 + d.2) ∈ st.1 ∧ min_distance_lt members c (c.1 + d.1, c.2 + d.2) = true then
    (st.1.erase (c.1 + d.1, c.2 + d.2), st.2 ++ [(c.1 + d.1, c.2 + d.2)])
  else st

/-- The inner `for delta_i, delta_j in product(...)` loop of `bfs`, run for
the freshly popped cell `c`. -/
def scan (members : (Int × Int) → List Vehicle) (c : Int × Int)
    (avail queue : List (Int × Int)) : List (Int × Int) × List (Int × Int) :=
  SCAN_DELTAS.foldl (scanStep members c) (avail, queue)

/-- Mirrors `UnitTracker.bfs` at cell granularity: pop cells off the queue,
scanning the 3x3 neighbourhood of each popped cell; returns the popped cells
in pop order (the generator yields their members in this order) and the cells
left unvisited. -/
def bfs (members : (Int × Int) → List Vehicle) :
    List (Int × Int) → List (Int × Int) → List (Int × Int) × List (Int × Int)
  | avail, [] => ([], avail)
  | avail, c :: queue =>
    let p := scan members c avail queue
    let r := bfs members p.1 p.2
    (c :: r.1, r.2)
termination_by avail queue => avail.length + queue.length
decreasing_by
  have key : ∀ (ds : List (Int × Int)) (st : List (Int × Int) × List (Int × Int)),
      (List.foldl (scanStep members c) st ds).1.length +
          (List.foldl (scanStep members c) st ds).2.length ≤
        st.1.length + st.2.length := by
    intro ds
    induction ds with
    | nil => intro st; simp
    | cons d ds ih =>
      intro st
      refine le_trans (ih _) ?_
      unfold scanStep
      split
      · rename_i h
        have h1 := List.length_erase_of_mem h.1
        have h2 : 0 < st.1.length := List.length_pos_of_mem h.1
        simp only [List.length_append, List.length_cons, List.length_nil, h1]
        omega
      · exact le_refl _
  have hp : (scan members c avail queue).1.length + (scan members c avail queue).2.length ≤
      avail.length + queue.length :=
    key SCAN_DELTAS (avail, queue)
  simp only [List.length_cons]
  omega

/-- The `while cells:` loop of `UnitTracker.split_opponent_vehicles` at cell
granularity: pop a seed, flood-fill from it, and keep the visited cells'
member lists when non-empty. -/
def split_loop (members : (Int × Int) → List Vehicle) :
    List (Int × Int) → List (List Vehicle)
  | [] => []
  | c :: cs =>
    let r := bfs members cs [c]
    let vs := r.1.flatMap members
    if vs.isEmpty then split_loop members r.2 else vs :: split_loop members r.2
termination_by cs => cs.length
decreasing_by
  all_goals
    have key : ∀ (avail queue : List (Int × Int)),
        (bfs members avail queue).2.length ≤ avail.length := by
      intro avail queue
      induction avail, queue using bfs.induct members with
      | case1 avail => simp [bfs]
      | case2 avail c queue p ih =>
        have scankey : ∀ (ds : List (Int × Int)) (st : List (Int × Int) × List (Int × Int)),
            (List.foldl (scanStep members c) st ds).1.length ≤ st.1.length := by
          intro ds
          induction ds with
          | nil => intro st; simp
          | cons d ds ih2 =>
            intro st
            refine le_trans (ih2 _) ?_
            unfold scanStep
            split
            · exact List.length_erase_le _ _
            · exact le_refl _
        have hs : (scan members c avail queue).1.length ≤ avail.length :=
          scankey SCAN_DELTAS (avail, queue)
        simp only [bfs]
        exact le_trans ih hs
    have hb : (bfs members cs [c]).2.length ≤ cs.length := key cs [c]
    simp only [List.length_cons]
    omega

/-- Mirrors `statistics.mean` on a non-empty sequence of rationals. -/
def list_mean (l : List ℚ) : ℚ := l.sum / l.length

/-- Builds `Cluster(vehicles, mean(x), mean(y))`. -/
def mkCluster (vs : List Vehicle) : Cluster :=
  ⟨vs, list_mean (vs.map (fun v => v.x)), list_mean (vs.map (fun v => v.y))⟩

/-- Mirrors `{cell for cell, vehicles in self.cells.items() if vehicles}`:
the distinct cell keys of the grid index, in a fixed deterministic order. -/
def nonempty_cells (s : TrackerState) : List (Int × Int) :=
  (s.cells.map (fun e => e.1)).dedup

/-- Mirrors `UnitTracker.split_opponent_vehicles`. -/
def split_opponent_vehicles (s : TrackerState) : List Cluster :=
  (split_loop (cell_vehicles s) (nonempty_cells s)).map mkCluster

/-- Stable insertion of a cluster into a size-descending list (a later
cluster never jumps ahead of an equal-sized earlier one). -/
def insertDesc (a : Cluster) : List Cluster → List Cluster
  | [] => [a]
  | b :: bs =>
    if b.vehicles.length ≤ a.vehicles.length then a :: b :: bs else b :: insertDesc a bs

/-- Mirrors `sorted(..., key=lambda cluster: len(cluster.vehicles), reverse=True)`
(Python's sort is stable). -/
def sortBySizeDesc (l : List Cluster) : List Cluster := l.foldr insertDesc []

/-- Mirrors `UnitTracker.update_clusters`. -/
def update_clusters (s : TrackerState) : TrackerState :=
  { s with clusters := sortBySizeDesc (split_opponent_vehicles s) }

/-- The static cell-to-cell merge relation the BFS guard tests: 3x3 adjacency
together with a minimum pairwise member distance strictly below the cell-size
threshold. -/
def cells_linked (members : (Int × Int) → List Vehicle) (c d : Int × Int) : Prop :=
  (d.1 - c.1, d.2 - c.2) ∈ SCAN_DELTAS ∧ min_distance_lt members c d = true

/-- Demo game constants with all vision factors equal to one. -/
def demo_game : Game := ⟨1, 1, 1, 1, 1, 1⟩

/-- Demo terrain grid: plain everywhere. -/
def demo_terrain : Int → Int → Nat := fun _ _ => PLAIN

/-- Demo weather grid: clear everywhere. -/
def demo_weather : Int → Int → Nat := fun _ _ => CLEAR

/-- Demo own unit for the strike scenario. -/
def demo_me_vehicle : Vehicle := ⟨1, 1, 0, 0, 100, [], false, 0, .tank, 100, 2⟩

/-- Demo opponent unit for the strike scenario. -/
def demo_opp_vehicle : Vehicle := ⟨2, 2, 10, 10, 100, [], false, 0, .ifv, 80, 2⟩

/-- Demo cluster holding the opponent unit. -/
def demo_cluster : Cluster := ⟨[demo_opp_vehicle], 10, 10⟩

/-- Demo tracker state with one own unit, one clustered opponent unit. -/
def demo_strike_state : TrackerState :=
  ⟨[demo_me_vehicle, demo_opp_vehicle], [], [demo_cluster], []⟩

/-! ### Scheduler lemmas -/

theorem scheduler_move_gated {α : Type} (t : Nat) (s : Scheduler α)
    (h : t < s.next_action_tick) : scheduler_move t s = (none, s) := by
  unfold scheduler_move
  cases hq : s.action_queue with
  | nil => rfl
  | cons a rest => simp [Nat.not_le.mpr h]

theorem run_ticks_gated {α : Type} :
    ∀ (ts : List Nat) (s : Scheduler α), (∀ u ∈ ts, u < s.next_action_tick) →
      run_ticks s ts = ([], s) := by
  intro ts
  induction ts with
  | nil => intro s _; rfl
  | cons t ts ih =>
    intro s h
    have hm := scheduler_move_gated t s (h t (by simp))
    simp only [run_ticks, hm]
    exact ih s (fun u hu => h u (by simp [hu]))

theorem run_ticks_fifo {α : Type} :
    ∀ (ts : List Nat) (s : Scheduler α),
      (run_ticks s ts).1 = s.action_queue.take (run_ticks s ts).1.length ∧
        (run_ticks s ts).2.action_queue = s.action_queue.drop (run_ticks s ts).1.length ∧
        (run_ticks s ts).1.length ≤ ts.length := by
  intro ts
  induction ts with
  | nil => intro s; simp [run_ticks]
  | cons t ts ih =>
    intro s
    cases hq : s.action_queue with
    | nil =>
      have hm : scheduler_move t s = (none, s) := by simp [scheduler_move, hq]
      simp only [run_ticks, hm]
      obtain ⟨h1, h2, h3⟩ := ih s
      rw [hq] at h1 h2
      exact ⟨h1, h2, Nat.le_succ_of_le h3⟩
    | cons a rest =>
      by_cases hg : s.next_action_tick ≤ t
      · have hm : scheduler_move t s = (some a, ⟨rest, t + 5⟩) := by
          simp [scheduler_move, hq, hg]
        obtain ⟨h1, h2, h3⟩ := ih (⟨rest, t + 5⟩ : Scheduler α)
        simp only [run_ticks, hm]
        refine ⟨?_, ?_, ?_⟩
        · simp only [List.length_cons, List.take_succ_cons]
          exact congrArg (a :: ·) h1
        · simp only [List.length_cons, List.drop_succ_cons]
          exact h2
        · simp only [List.length_cons]
          exact Nat.succ_le_succ h3
      · have hm : scheduler_move t s = (none, s) := by
          simp [scheduler_move, hq, hg]
        simp only [run_ticks, hm]
        obtain ⟨h1, h2, h3⟩ := ih s
        rw [hq] at h1 h2
        exact ⟨h1, h2, Nat.le_succ_of_le h3⟩

/-- Claim C3: over any sequence of tick calls, the scheduler releases at most
one action per tick (at most as many actions as ticks), the released actions
are exactly a front prefix of the queue in FIFO order with the rest of the
queue preserved in order, and a tick made while the release gate is shut
(`next_action_tick` still in the future) releases nothing and leaves the
whole scheduler state unchanged. -/
theorem claim_C3_scheduler_fifo {α : Type} (ts : List Nat) (s : Scheduler α) :
    (run_ticks s ts).1 = s.action_queue.take (run_ticks s ts).1.length ∧
      (run_ticks s ts).2.action_queue = s.action_queue.drop (run_ticks s ts).1.length ∧
      (run_ticks s ts).1.length ≤ ts.length ∧
      (∀ t : Nat, t < s.next_action_tick → scheduler_move t s = (none, s)) :=
  ⟨(run_ticks_fifo ts s).1, (run_ticks_fifo ts s).2.1, (run_ticks_fifo ts s).2.2,
    fun t ht => scheduler_move_gated t s ht⟩

/-- Witness for C3 at a concrete scheduler: three queued actions released in
order over enough open ticks, and a shut-gate tick that changes nothing. -/
theorem claim_C3_scheduler_fifo_witness :
    scheduler_move 2 (⟨[10, 20, 30], 3⟩ : Scheduler Nat) =
      (none, (⟨[10, 20, 30], 3⟩ : Scheduler Nat)) :=
  (claim_C3_scheduler_fifo [] (⟨[10, 20, 30], 3⟩ : Scheduler Nat)).2.2.2 2 (by decide)

/-- Claim C10: releasing an action at tick `t` freezes the scheduler until
`t + 5`: the stored `next_action_tick` becomes `t + 5` and any further ticks
strictly before `t + 5` release nothing and leave the state unchanged. -/
theorem claim_C10_release_spacing {α : Type} (t : Nat) (s s' : Scheduler α) (a : α)
    (h : scheduler_move t s = (some a, s')) :
    s'.next_action_tick = t + 5 ∧
      ∀ ts : List Nat, (∀ u ∈ ts, u < t + 5) → run_ticks s' ts = ([], s') := by
  have hnext : s'.next_action_tick = t + 5 := by
    cases hq : s.action_queue with
    | nil =>
      have hm : scheduler_move t s = (none, s) := by simp [scheduler_move, hq]
      rw [hm] at h
      simp at h
    | cons b rest =>
      by_cases hg : s.next_action_tick ≤ t
      · have hm : scheduler_move t s = (some b, ⟨rest, t + 5⟩) := by
          simp [scheduler_move, hq, hg]
        rw [hm] at h
        injection h with hfst hsnd
        rw [← hsnd]
      · have hm : scheduler_move t s = (none, s) := by simp [scheduler_move, hq, hg]
        rw [hm] at h
        simp at h
  refine ⟨hnext, fun ts hts => run_ticks_gated ts s' (fun u hu => ?_)⟩
  rw [hnext]
  exact hts u hu

/-- Witness for C10: a release at tick 7 freezes the queue through tick 11. -/
theorem claim_C10_release_spacing_witness :
    run_ticks (⟨[2], 12⟩ : Scheduler Nat) [8, 11] = ([], (⟨[2], 12⟩ : Scheduler Nat)) :=
  (claim_C10_release_spacing 7 (⟨[1, 2], 0⟩ : Scheduler Nat) (⟨[2], 12⟩ : Scheduler Nat) 1
      (by decide)).2 [8, 11] (by decide)

/-! ### Vision model -/

/-- Claim C8: `get_true_vehicle_vision_range` scales the base vision range by
the terrain factor of the unit's 32-unit coarse cell for ground units, by the
weather factor of that cell for aerial units, and returns the unmodified base
range when the looked-up tag matches none of the three known values. -/
theorem claim_C8_vision_model (terrain weather : Int → Int → Nat) (game : Game) (v : Vehicle) :
    (v.vtype ∈ GROUND_TYPES →
      (terrain ⌊v.x / 32⌋ ⌊v.y / 32⌋ = FOREST →
          get_true_vehicle_vision_range terrain weather game v =
            v.vision_range * game.forest_terrain_vision_factor) ∧
        (terrain ⌊v.x / 32⌋ ⌊v.y / 32⌋ = PLAIN →
          get_true_vehicle_vision_range terrain weather game v =
            v.vision_range * game.plain_terrain_vision_factor) ∧
        (terrain ⌊v.x / 32⌋ ⌊v.y / 32⌋ = SWAMP →
          get_true_vehicle_vision_range terrain weather game v =
            v.vision_range * game.swamp_terrain_vision_factor) ∧
        (terrain ⌊v.x / 32⌋ ⌊v.y / 32⌋ ≠ FOREST → terrain ⌊v.x / 32⌋ ⌊v.y / 32⌋ ≠ PLAIN →
          terrain ⌊v.x / 32⌋ ⌊v.y / 32⌋ ≠ SWAMP →
          get_true_vehicle_vision_range terrain weather game v = v.vision_range)) ∧
      (v.vtype ∈ AERIAL_TYPES →
        (weather ⌊v.x / 32⌋ ⌊v.y / 32⌋ = CLEAR →
            get_true_vehicle_vision_range terrain weather game v =
              v.vision_range * game.clear_weather_vision_factor) ∧
          (weather ⌊v.x / 32⌋ ⌊v.y / 32⌋ = CLOUD →
            get_true_vehicle_vision_range terrain weather game v =
              v.vision_range * game.cloud_weather_vision_factor) ∧
          (weather ⌊v.x / 32⌋ ⌊v.y / 32⌋ = RAIN →
            get_true_vehicle_vision_range terrain weather game v =
              v.vision_range * game.rain_weather_vision_factor) ∧
          (weather ⌊v.x / 32⌋ ⌊v.y / 32⌋ ≠ CLEAR → weather ⌊v.x / 32⌋ ⌊v.y / 32⌋ ≠ CLOUD →
            weather ⌊v.x / 32⌋ ⌊v.y / 32⌋ ≠ RAIN →
            get_true_vehicle_vision_range terrain weather game v = v.vision_range)) := by
  constructor
  · intro hg
    refine ⟨fun h => ?_, fun h => ?_, fun h => ?_, fun h1 h2 h3 => ?_⟩ <;>
      simp_all [get_true_vehicle_vision_range, FOREST, PLAIN, SWAMP]
  · intro ha
    have hng : v.vtype ∉ GROUND_TYPES := by
      cases htv : v.vtype <;> simp_all [GROUND_TYPES, AERIAL_TYPES]
    refine ⟨fun h => ?_, fun h => ?_, fun h => ?_, fun h1 h2 h3 => ?_⟩ <;>
      simp_all [get_true_vehicle_vision_range, CLEAR, CLOUD, RAIN]

/-- Witness for C8: a tank in a forest cell, a fighter in a rain cell, and a
fighter over an unrecognized weather tag. -/
theorem claim_C8_vision_model_witness :
    (get_true_vehicle_vision_range (fun _ _ => FOREST) (fun _ _ => RAIN)
        ⟨2, 3, 4, 5, 6, 7⟩ ⟨1, 1, 10, 20, 100, [], false, 0, .tank, 80, 2⟩ =
      80 * 2) ∧
      (get_true_vehicle_vision_range (fun _ _ => FOREST) (fun _ _ => RAIN)
          ⟨2, 3, 4, 5, 6, 7⟩ ⟨1, 1, 10, 20, 100, [], false, 0, .fighter, 80, 2⟩ =
        80 * 7) ∧
      (get_true_vehicle_vision_range (fun _ _ => FOREST) (fun _ _ => 99)
          ⟨2, 3, 4, 5, 6, 7⟩ ⟨1, 1, 10, 20, 100, [], false, 0, .fighter, 80, 2⟩ =
        80) :=
  ⟨((claim_C8_vision_model (fun _ _ => FOREST) (fun _ _ => RAIN) ⟨2, 3, 4, 5, 6, 7⟩
        ⟨1, 1, 10, 20, 100, [], false, 0, .tank, 80, 2⟩).1 (by decide)).1 rfl,
    (((claim_C8_vision_model (fun _ _ => FOREST) (fun _ _ => RAIN) ⟨2, 3, 4, 5, 6, 7⟩
          ⟨1, 1, 10, 20, 100, [], false, 0, .fighter, 80, 2⟩).2 (by decide)).2.2.1 rfl),
    (((claim_C8_vision_model (fun _ _ => FOREST) (fun _ _ => 99) ⟨2, 3, 4, 5, 6, 7⟩
          ⟨1, 1, 10, 20, 100, [], false, 0, .fighter, 80, 2⟩).2 (by decide)).2.2.2
      (by decide) (by decide) (by decide))⟩

/-! ### Clustering idempotence -/

/-- Claim C9: recomputing the clusters twice without any intervening mutation
of the unit table or the grid index yields the identical cluster list: same
clusters, same membership, same centroids, same order. -/
theorem claim_C9_clustering_idempotent (s : TrackerState) :
    (update_clusters (update_clusters s)).clusters = (update_clusters s).clusters := rfl

/-! ### Spread-out policy on an empty own-unit set -/

/-- Counterexample to claim C5 as stated: with no own units tracked, the
spread-out policy does not decline — `random.choice` on the empty own-unit
list raises an IndexError (modelled by `none`), so the condition propagates
as a fatal error instead of a declined turn. -/
theorem claim_C5_counterexample :
    my_vehicles 1 initState = [] ∧ spread_out_move 0 1 initState = none := ⟨rfl, rfl⟩

/-- Claim C5 as amended: on a tick where the own-unit set is non-empty the
spread-out policy claims the turn with a complete command pair (a selection
rectangle with all four coordinates supplied, then a scale); when the
own-unit set is empty it does not decline but fails with an unhandled
IndexError from `random.choice` (modelled by `none`). -/
theorem claim_C5_amended (pick me : Nat) (s : TrackerState) :
    (my_vehicles me s = [] → spread_out_move pick me s = none) ∧
      (my_vehicles me s ≠ [] →
        ∃ v l t r b, v ∈ my_vehicles me s ∧
          spread_out_move pick me s =
            some ([Cmd.clear_and_select none (some l) (some t) (some r) (some b),
                   Cmd.scale v.x v.y 10], true)) := by
  constructor
  · intro h
    simp [spread_out_move, pyChoice, h]
  · intro h
    cases hc : pyChoice pick (my_vehicles me s) with
    | none =>
      exfalso
      unfold pyChoice at hc
      split at hc
      · rename_i hz
        exact h (List.length_eq_zero.mp hz)
      · exact Option.noConfusion hc
    | some v =>
      have hvmem : v ∈ my_vehicles me s := by
        unfold pyChoice at hc
        split at hc
        · exact Option.noConfusion hc
        · cases hc
          exact List.get_mem _ _ _
      refine ⟨v, if v.x < 512 then v.x else v.x - SQUARE_SIZE,
        if v.y < 512 then v.y else v.y - SQUARE_SIZE,
        if v.x < 512 then v.x + SQUARE_SIZE else v.x,
        if v.y < 512 then v.y + SQUARE_SIZE else v.y, hvmem, ?_⟩
      unfold spread_out_move
      rw [hc]
      by_cases hx : v.x < 512 <;> by_cases hy : v.y < 512 <;> simp [hx, hy]

/-- Witness for the amended C5 at concrete states: the empty tracker fails,
and a tracker holding one own unit emits the full select-then-scale pair. -/
theorem claim_C5_amended_witness :
    spread_out_move 0 1 initState = none ∧
      ∃ v l t r b,
        v ∈ my_vehicles 1
            (⟨[⟨7, 1, 100, 600, 50, [], false, 0, .ifv, 80, 2⟩], [], [], []⟩ : TrackerState) ∧
          spread_out_move 0 1
              (⟨[⟨7, 1, 100, 600, 50, [], false, 0, .ifv, 80, 2⟩], [], [], []⟩ : TrackerState) =
            some ([Cmd.clear_and_select none (some l) (some t) (some r) (some b),
                   Cmd.scale v.x v.y 10], true) :=
  ⟨(claim_C5_amended 0 1 initState).1 rfl,
    (claim_C5_amended 0 1
        (⟨[⟨7, 1, 100, 600, 50, [], false, 0, .ifv, 80, 2⟩], [], [], []⟩ : TrackerState)).2
      (by decide)⟩

/-! ### Python `min` / `max` with keys -/

theorem foldl_max_mem {α κ : Type} [LinearOrder κ] (key : α → κ) :
    ∀ (xs : List α) (a : α),
      xs.foldl (fun best y => if key best < key y then y else best) a ∈ a :: xs := by
  intro xs
  induction xs with
  | nil => intro a; simp
  | cons y ys ih =>
    intro a
    simp only [List.foldl]
    rcases List.mem_cons.mp (ih (if key a < key y then y else a)) with h1 | h1
    · rw [h1]
      split
      · exact List.mem_cons_of_mem _ (List.mem_cons_self _ _)
      · exact List.mem_cons_self _ _
    · exact List.mem_cons_of_mem _ (List.mem_cons_of_mem _ h1)

theorem foldl_max_le {α κ : Type} [LinearOrder κ] (key : α → κ) :
    ∀ (xs : List α) (a z : α), z ∈ a :: xs →
      key z ≤ key (xs.foldl (fun best y => if key best < key y then y else best) a) := by
  intro xs
  induction xs with
  | nil =>
    intro a z hz
    simp only [List.mem_singleton] at hz
    rw [hz]
    exact le_refl _
  | cons y ys ih =>
    intro a z hz
    simp only [List.foldl]
    have hfa : key a ≤ key (if key a < key y then y else a) := by
      split
      · rename_i hlt
        exact le_of_lt hlt
      · exact le_refl _
    have hfy : key y ≤ key (if key a < key y then y else a) := by
      split
      · exact le_refl _
      · rename_i hlt
        exact le_of_not_lt hlt
    rcases List.mem_cons.mp hz with h | h
    · rw [h]
      exact le_trans hfa (ih _ _ (List.mem_cons_self _ _))
    · rcases List.mem_cons.mp h with h2 | h2
      · rw [h2]
        exact le_trans hfy (ih _ _ (List.mem_cons_self _ _))
      · exact ih _ z (List.mem_cons_of_mem _ h2)

theorem foldl_min_mem {α κ : Type} [LinearOrder κ] (key : α → κ) :
    ∀ (xs : List α) (a : α),
      xs.foldl (fun best y => if key y < key best then y else best) a ∈ a :: xs := by
  intro xs
  induction xs with
  | nil => intro a; simp
  | cons y ys ih =>
    intro a
    simp only [List.foldl]
    rcases List.mem_cons.mp (ih (if key y < key a then y else a)) with h1 | h1
    · rw [h1]
      split
      · exact List.mem_cons_of_mem _ (List.mem_cons_self _ _)
      · exact List.mem_cons_self _ _
    · exact List.mem_cons_of_mem _ (List.mem_cons_of_mem _ h1)

theorem foldl_min_le {α κ : Type} [LinearOrder κ] (key : α → κ) :
    ∀ (xs : List α) (a z : α), z ∈ a :: xs →
      key (xs.foldl (fun best y => if key y < key best then y else best) a) ≤ key z := by
  intro xs
  induction xs with
  | nil =>
    intro a z hz
    simp only [List.mem_singleton] at hz
    rw [hz]
    exact le_refl _
  | cons y ys ih =>
    intro a z hz
    simp only [List.foldl]
    have hfa : key (if key y < key a then y else a) ≤ key a := by
      split
      · rename_i hlt
        exact le_of_lt hlt
      · exact le_refl _
    have hfy : key (if key y < key a then y else a) ≤ key y := by
      split
      · exact le_refl _
      · rename_i hlt
        exact le_of_not_lt hlt
    rcases List.mem_cons.mp hz with h | h
    · rw [h]
      exact le_trans (ih _ _ (List.mem_cons_self _ _)) hfa
    · rcases List.mem_cons.mp h with h2 | h2
      · rw [h2]
        exact le_trans (ih _ _ (List.mem_cons_self _ _)) hfy
      · exact ih _ z (List.mem_cons_of_mem _ h2)

theorem pyMaxBy_mem {α κ : Type} [LinearOrder κ] (key : α → κ) (l : List α) (x : α)
    (h : pyMaxBy key l = some x) : x ∈ l := by
  cases l with
  | nil => exact Option.noConfusion h
  | cons a xs =>
    simp only [pyMaxBy, Option.some.injEq] at h
    rw [← h]
    exact foldl_max_mem key xs a

theorem pyMaxBy_le {α κ : Type} [LinearOrder κ] (key : α → κ) (l : List α) (x : α)
    (h : pyMaxBy key l = some x) : ∀ z ∈ l, key z ≤ key x := by
  cases l with
  | nil => exact Option.noConfusion h
  | cons a xs =>
    simp only [pyMaxBy, Option.some.injEq] at h
    intro z hz
    rw [← h]
    exact foldl_max_le key xs a z hz

theorem pyMinBy_mem {α κ : Type} [LinearOrder κ] (key : α → κ) (l : List α) (x : α)
    (h : pyMinBy key l = some x) : x ∈ l := by
  cases l with
  | nil => exact Option.noConfusion h
  | cons a xs =>
    simp only [pyMinBy, Option.some.injEq] at h
    rw [← h]
    exact foldl_min_mem key xs a

theorem pyMinBy_le {α κ : Type} [LinearOrder κ] (key : α → κ) (l : List α) (x : α)
    (h : pyMinBy key l = some x) : ∀ z ∈ l, key x ≤ key z := by
  cases l with
  | nil => exact Option.noConfusion h
  | cons a xs =>
    simp only [pyMinBy, Option.some.injEq] at h
    intro z hz
    rw [← h]
    exact foldl_min_le key xs a z hz

/-! ### Strike feasibility -/

theorem strike_reachable_iff_sqrt (terrain weather : Int → Int → Nat) (game : Game)
    (v u : Vehicle) :
    strike_reachable terrain weather game v u = true ↔
      Real.sqrt ((v.get_squared_distance_to_unit u : ℚ) : ℝ) <
        ((get_true_vehicle_vision_range terrain weather game v : ℚ) : ℝ) := by
  have hd0 : (0 : ℚ) ≤ v.get_squared_distance_to_unit u := by
    unfold Vehicle.get_squared_distance_to_unit Vehicle.get_squared_distance_to
    positivity
  unfold strike_reachable
  simp only [Bool.and_eq_true, decide_eq_true_eq]
  constructor
  · rintro ⟨hr0, hlt⟩
    have hrpos : (0 : ℚ) < get_true_vehicle_vision_range terrain weather game v := by
      rcases lt_or_eq_of_le hr0 with hc | hc
      · exact hc
      · exfalso
        rw [← hc] at hlt
        simpa using lt_of_le_of_lt hd0 hlt
    rw [Real.sqrt_lt' (by exact_mod_cast hrpos)]
    exact_mod_cast hlt
  · intro hs
    have hrpos : (0 : ℝ) < ((get_true_vehicle_vision_range terrain weather game v : ℚ) : ℝ) :=
      lt_of_le_of_lt (Real.sqrt_nonneg _) hs
    refine ⟨by exact_mod_cast le_of_lt hrpos, ?_⟩
    have hx := (Real.sqrt_lt' hrpos).mp hs
    exact_mod_cast hx

/-- Claim C6: the strike-candidate feasibility test is the exact boundary
`distance < effective vision range`: the reachability test holds iff the
Euclidean distance to the candidate is strictly below the effective vision
range, every candidate recorded in `possible_strikes` passed that test (a
candidate at distance at or beyond the vision range is rejected), and when no
candidate is feasible the strike policy declines. -/
theorem claim_C6_strike_feasibility_boundary (terrain weather : Int → Int → Nat) (game : Game) :
    (∀ v u : Vehicle,
        (strike_reachable terrain weather game v u = true ↔
          Real.sqrt ((v.get_squared_distance_to_unit u : ℚ) : ℝ) <
            ((get_true_vehicle_vision_range terrain weather game v : ℚ) : ℝ))) ∧
      (∀ (me : Nat) (s : TrackerState) (t : Vehicle × Vehicle × Cluster),
        t ∈ possible_strikes terrain weather game me s →
          strike_reachable terrain weather game t.1 t.2.1 = true) ∧
      (∀ (cooldown me : Nat) (s : TrackerState),
        possible_strikes terrain weather game me s = [] →
          nuclear_strike_move terrain weather game cooldown me s = none) := by
  refine ⟨fun v u => strike_reachable_iff_sqrt terrain weather game v u, ?_, ?_⟩
  · intro me s t ht
    unfold possible_strikes at ht
    rw [List.mem_filterMap] at ht
    obtain ⟨v, hv, hsome⟩ := ht
    split at hsome
    · exact Option.noConfusion hsome
    · split at hsome
      · exact Option.noConfusion hsome
      · split at hsome
        · rename_i hr
          cases hsome
          exact hr
        · exact Option.noConfusion hsome
  · intro cooldown me s hps
    by_cases h1 : cooldown ≠ 0
    · simp [nuclear_strike_move, h1]
    · by_cases h2 : s.clusters = []
      · simp [nuclear_strike_move, h1, h2]
      · simp [nuclear_strike_move, h1, h2, hps, pyMaxBy]

/-- Witness for C6: with no tracked units there is no feasible candidate and
the strike policy declines. -/
theorem claim_C6_strike_feasibility_boundary_witness :
    nuclear_strike_move demo_terrain demo_weather demo_game 0 1 initState = none :=
  (claim_C6_strike_feasibility_boundary demo_terrain demo_weather demo_game).2.2 0 1 initState
    rfl

/-- Claim C7: the strike policy claims the turn only when the strike cooldown
is zero and at least one cluster exists, and the emitted strike targets the
candidate maximal under the key (cluster size, negated squared distance of
the target to its cluster centroid) — most members first, ties broken by the
smaller target-to-centroid distance. -/
theorem claim_C7_strike_eligibility_and_preference (terrain weather : Int → Int → Nat)
    (game : Game) (cooldown me : Nat) (s : TrackerState) (cmds : List Cmd)
    (h : nuclear_strike_move terrain weather game cooldown me s = some cmds) :
    cooldown = 0 ∧ s.clusters ≠ [] ∧
      ∃ t, pyMaxBy strike_key (possible_strikes terrain weather game me s) = some t ∧
        t ∈ possible_strikes terrain weather game me s ∧
        (∀ t' ∈ possible_strikes terrain weather game me s, strike_key t' ≤ strike_key t) ∧
        cmds = [select_vehicle_cmd t.1, Cmd.move_by 0 0 none,
          Cmd.tactical_nuclear_strike t.1.id t.2.1.x t.2.1.y] := by
  unfold nuclear_strike_move at h
  by_cases h1 : cooldown ≠ 0
  · rw [if_pos h1] at h
    exact Option.noConfusion h
  · rw [if_neg h1] at h
    by_cases h2 : s.clusters = []
    · rw [if_pos h2] at h
      exact Option.noConfusion h
    · rw [if_neg h2] at h
      refine ⟨not_ne_iff.mp h1, h2, ?_⟩
      cases hm : pyMaxBy strike_key (possible_strikes terrain weather game me s) with
      | none => rw [hm] at h; exact Option.noConfusion h
      | some t =>
        rw [hm] at h
        cases h
        exact ⟨t, rfl, pyMaxBy_mem _ _ _ hm, pyMaxBy_le _ _ _ hm, rfl⟩

/-- Witness for C7: the demo scenario produces a strike, so the eligibility
conditions hold there. -/
theorem claim_C7_strike_eligibility_and_preference_witness :
    demo_strike_state.clusters ≠ [] := by
  have hmv : my_vehicles 1 demo_strike_state = [demo_me_vehicle] := by decide
  have hreach : strike_reachable demo_terrain demo_weather demo_game demo_me_vehicle
      demo_opp_vehicle = true := by
    unfold strike_reachable get_true_vehicle_vision_range
    norm_num [demo_me_vehicle, demo_opp_vehicle, demo_terrain, demo_game, GROUND_TYPES,
      PLAIN, FOREST, SWAMP, Vehicle.get_squared_distance_to_unit,
      Vehicle.get_squared_distance_to]
  have hps : possible_strikes demo_terrain demo_weather demo_game 1 demo_strike_state =
      [(demo_me_vehicle, demo_opp_vehicle, demo_cluster)] := by
    unfold possible_strikes
    rw [hmv]
    simp [demo_strike_state, demo_cluster, pyMinBy, hreach]
  have hnm : nuclear_strike_move demo_terrain demo_weather demo_game 0 1 demo_strike_state =
      some [select_vehicle_cmd demo_me_vehicle, Cmd.move_by 0 0 none,
        Cmd.tactical_nuclear_strike demo_me_vehicle.id demo_opp_vehicle.x
          demo_opp_vehicle.y] := by
    unfold nuclear_strike_move
    rw [hps]
    simp [demo_strike_state, pyMaxBy]
  exact (claim_C7_strike_eligibility_and_preference demo_terrain demo_weather demo_game 0 1
      demo_strike_state _ hnm).2.1

/-! ### Unit-table and grid-index helpers -/

theorem find?_some_id (vs : List Vehicle) (id : Nat) (w : Vehicle)
    (h : vs.find? (fun v => v.id == id) = some w) : w ∈ vs ∧ w.id = id := by
  refine ⟨List.mem_of_find?_eq_some h, ?_⟩
  have hp := List.find?_some h
  simpa using hp

theorem find?_eq_none_id (vs : List Vehicle) (id : Nat) :
    vs.find? (fun v => v.id == id) = none ↔ ∀ w ∈ vs, w.id ≠ id := by
  rw [List.find?_eq_none]
  simp

theorem find?_first_of_nodup (vs : List Vehicle)
    (hnd : (vs.map (fun v => v.id)).Nodup) (w : Vehicle) (hw : w ∈ vs) :
    vs.find? (fun v => v.id == w.id) = some w := by
  induction vs with
  | nil => cases hw
  | cons a as ih =>
    rw [List.map_cons, List.nodup_cons] at hnd
    rcases List.mem_cons.mp hw with h | h
    · subst h
      rw [List.find?_cons_of_pos _ (by simp)]
    · have hane : (a.id == w.id) = false := by
        simp only [beq_eq_false_iff_ne]
        intro he
        exact hnd.1 (he ▸ List.mem_map_of_mem (fun v => v.id) h)
      rw [List.find?_cons_of_neg _ (by simp [hane])]
      exact ih hnd.2 h

theorem mem_cellInsert (cs : List ((Int × Int) × Nat)) (c : Int × Int) (id : Nat)
    (e : (Int × Int) × Nat) : e ∈ cellInsert cs c id ↔ e ∈ cs ∨ e = (c, id) := by
  unfold cellInsert
  by_cases h : (c, id) ∈ cs
  · rw [if_pos h]
    exact ⟨fun he => Or.inl he, fun he => he.elim (fun x => x) (fun hx => hx ▸ h)⟩
  · rw [if_neg h]
    simp

theorem mem_cellPop (cs : List ((Int × Int) × Nat)) (c : Int × Int) (id : Nat)
    (e : (Int × Int) × Nat) : e ∈ cellPop cs c id ↔ e ∈ cs ∧ e ≠ (c, id) := by
  obtain ⟨⟨i, j⟩, n⟩ := e
  obtain ⟨ci, cj⟩ := c
  simp [cellPop, List.mem_filter, Prod.ext_iff, and_assoc]
  intro hmem
  tauto

theorem cellPop_sublist (cs : List ((Int × Int) × Nat)) (c : Int × Int) (id : Nat) :
    List.Sublist (cellPop cs c id) cs := List.filter_sublist cs

theorem dictInsert_fresh (vs : List Vehicle) (v : Vehicle) (h : ∀ w ∈ vs, w.id ≠ v.id) :
    dictInsert vs v = vs ++ [v] := by
  unfold dictInsert
  rw [if_neg]
  simp only [List.any_eq_true, beq_iff_eq, not_exists, not_and]
  exact h

theorem mem_dictInsert (vs : List Vehicle) (v w : Vehicle) (h : w ∈ dictInsert vs v) :
    w ∈ vs ∨ w = v := by
  unfold dictInsert at h
  split at h
  · rw [List.mem_map] at h
    obtain ⟨w0, hw0, hfw⟩ := h
    by_cases hc : (w0.id == v.id) = true
    · rw [if_pos hc] at hfw
      exact Or.inr hfw.symm
    · rw [if_neg hc] at hfw
      exact Or.inl (hfw ▸ hw0)
  · rcases List.mem_append.mp h with h1 | h1
    · exact Or.inl h1
    · exact Or.inr (by simpa using h1)

theorem cellPop_mem_iff (opp : Nat) (s : TrackerState) (v : Vehicle)
    (hinv : GridInv opp s) (hv : v ∈ s.vehicles) (e : (Int × Int) × Nat) :
    e ∈ cellPop s.cells (get_cell_index v) v.id ↔ e ∈ s.cells ∧ e.2 ≠ v.id := by
  obtain ⟨hnd1, -, h3, -⟩ := hinv
  rw [mem_cellPop]
  constructor
  · rintro ⟨he, hne⟩
    refine ⟨he, fun heid => hne ?_⟩
    obtain ⟨w, hw, -, hc⟩ := h3 e he
    have hfv : s.find? v.id = some v := find?_first_of_nodup s.vehicles hnd1 v hv
    rw [heid] at hw
    have hwv : v = w := by
      have := hfv.symm.trans hw
      exact Option.some.injEq _ _ ▸ this
    obtain ⟨c0, n0⟩ := e
    simp only [Prod.mk.injEq]
    exact ⟨by rw [hwv]; exact hc.symm ▸ rfl, heid⟩
  · rintro ⟨he, hne⟩
    exact ⟨he, fun heq => hne (by rw [heq])⟩

theorem add_single_vehicles (opp : Nat) (s : TrackerState) (v : Vehicle)
    (hfr : ∀ w ∈ s.vehicles, w.id ≠ v.id) :
    (add_new_vehicles opp s [v]).vehicles = s.vehicles ++ [v] := by
  show dictInsert s.vehicles v = s.vehicles ++ [v]
  exact dictInsert_fresh s.vehicles v hfr

theorem GridInv_add_single (opp : Nat) (s : TrackerState) (v : Vehicle)
    (hfresh : s.find? v.id = none) (hinv : GridInv opp s) :
    GridInv opp (add_new_vehicles opp s [v]) := by
  obtain ⟨hnd1, hnd2, h3, h4⟩ := hinv
  have hfr : ∀ w ∈ s.vehicles, w.id ≠ v.id := (find?_eq_none_id _ _).mp hfresh
  have hvid : v.id ∉ s.vehicles.map (fun w => w.id) := by
    rw [List.mem_map]
    rintro ⟨w, hw, hweq⟩
    exact hfr w hw hweq
  have hcid : v.id ∉ cell_ids s := by
    intro hmem
    rw [cell_ids, List.mem_map] at hmem
    obtain ⟨e, he, heq⟩ := hmem
    obtain ⟨w, hw, -, -⟩ := h3 e he
    rw [heq, hfresh] at hw
    exact Option.noConfusion hw
  have hnotc : (get_cell_index v, v.id) ∉ s.cells := by
    intro hm
    exact hcid (List.mem_map_of_mem (fun e => e.2) hm)
  have hveh := add_single_vehicles opp s v hfr
  have hcells : (add_new_vehicles opp s [v]).cells =
      if v.player_id == opp then s.cells ++ [(get_cell_index v, v.id)] else s.cells := by
    show (if v.player_id == opp then cellInsert s.cells (get_cell_index v) v.id else s.cells) = _
    by_cases hg : (v.player_id == opp) = true
    · rw [if_pos hg, if_pos hg]
      unfold cellInsert
      rw [if_neg hnotc]
    · rw [if_neg hg, if_neg hg]
  have hfind_keep : ∀ (idq : Nat) (w : Vehicle),
      s.vehicles.find? (fun x => x.id == idq) = some w →
      (s.vehicles ++ [v]).find? (fun x => x.id == idq) = some w := by
    intro idq w hw
    rw [List.find?_append, hw]
    rfl
  refine ⟨?_, ?_, ?_, ?_⟩
  · rw [hveh]
    simp only [List.map_append, List.map_cons, List.map_nil]
    rw [List.nodup_append]
    refine ⟨hnd1, List.nodup_singleton _, ?_⟩
    intro a ha hb
    simp only [List.mem_singleton] at hb
    exact hvid (hb ▸ ha)
  · show (cell_ids (add_new_vehicles opp s [v])).Nodup
    unfold cell_ids
    rw [hcells]
    by_cases hg : (v.player_id == opp) = true
    · rw [if_pos hg]
      simp only [List.map_append, List.map_cons, List.map_nil]
      rw [List.nodup_append]
      refine ⟨hnd2, List.nodup_singleton _, ?_⟩
      intro a ha hb
      simp only [List.mem_singleton] at hb
      exact hcid (hb ▸ ha)
    · rw [if_neg hg]
      exact hnd2
  · intro e he
    rw [hcells] at he
    by_cases hg : (v.player_id == opp) = true
    · rw [if_pos hg] at he
      rcases List.mem_append.mp he with h1 | h1
      · obtain ⟨w, hw, hp, hc⟩ := h3 e h1
        refine ⟨w, ?_, hp, hc⟩
        show (add_new_vehicles opp s [v]).vehicles.find? (fun x => x.id == e.2) = some w
        rw [hveh]
        exact hfind_keep _ _ hw
      · have he2 : e = (get_cell_index v, v.id) := by simpa using h1
        subst he2
        refine ⟨v, ?_, by simpa using hg, rfl⟩
        show (add_new_vehicles opp s [v]).vehicles.find? (fun x => x.id == v.id) = some v
        rw [hveh, List.find?_append]
        rw [show s.vehicles.find? (fun x => x.id == v.id) = none from hfresh]
        simp [List.find?]
    · rw [if_neg hg] at he
      obtain ⟨w, hw, hp, hc⟩ := h3 e he
      refine ⟨w, ?_, hp, hc⟩
      show (add_new_vehicles opp s [v]).vehicles.find? (fun x => x.id == e.2) = some w
      rw [hveh]
      exact hfind_keep _ _ hw
  · intro w hw hop
    rw [hveh] at hw
    rw [hcells]
    rcases List.mem_append.mp hw with h1 | h1
    · have hmem := h4 w h1 hop
      by_cases hg : (v.player_id == opp) = true
      · rw [if_pos hg]
        exact List.mem_append_left _ hmem
      · rw [if_neg hg]
        exact hmem
    · have hwv : w = v := by simpa using h1
      subst hwv
      have hg : (w.player_id == opp) = true := by simpa using hop
      rw [if_pos hg]
      exact List.mem_append_right _ (by simp)

theorem find?_add_single_none (opp : Nat) (s : TrackerState) (v : Vehicle) (idq : Nat)
    (hfresh : s.find? v.id = none) (h1 : s.find? idq = none) (h2 : v.id ≠ idq) :
    (add_new_vehicles opp s [v]).find? idq = none := by
  have hfr : ∀ w ∈ s.vehicles, w.id ≠ v.id := (find?_eq_none_id _ _).mp hfresh
  show (add_new_vehicles opp s [v]).vehicles.find? (fun x => x.id == idq) = none
  rw [add_single_vehicles opp s v hfr, List.find?_append]
  rw [show s.vehicles.find? (fun x => x.id == idq) = none from h1]
  have hb : (v.id == idq) = false := by simp [h2]
  simp [List.find?, hb]

theorem GridInv_add_new (opp : Nat) :
    ∀ (news : List Vehicle) (s : TrackerState), GridInv opp s →
      (news.map (fun v => v.id)).Nodup → (∀ v ∈ news, s.find? v.id = none) →
      GridInv opp (add_new_vehicles opp s news) := by
  intro news
  induction news with
  | nil => intro s h _ _; exact h
  | cons v rest ih =>
    intro s hinv hnd hfresh
    rw [List.map_cons, List.nodup_cons] at hnd
    have hstep : add_new_vehicles opp s (v :: rest) =
        add_new_vehicles opp (add_new_vehicles opp s [v]) rest := rfl
    rw [hstep]
    have hfv := hfresh v (List.mem_cons_self _ _)
    apply ih
    · exact GridInv_add_single opp s v hfv hinv
    · exact hnd.2
    · intro w hw
      refine find?_add_single_none opp s v w.id hfv (hfresh w (List.mem_cons_of_mem _ hw)) ?_
      intro he
      exact hnd.1 (he ▸ List.mem_map_of_mem (fun x => x.id) hw)

theorem GridInv_apply_update (opp : Nat) (s s' : TrackerState) (u : VehicleUpdate)
    (h : apply_update opp s u = some s') (hinv : GridInv opp s) : GridInv opp s' := by
  have hpopall := cellPop_mem_iff opp s
  obtain ⟨hnd1, hnd2, h3, h4⟩ := hinv
  unfold apply_update at h
  split at h
  · exact Option.noConfusion h
  · rename_i v hf
    obtain ⟨hvmem, hvid⟩ := find?_some_id _ _ _ hf
    have hpop := hpopall v ⟨hnd1, hnd2, h3, h4⟩ hvmem
    by_cases hdur : (u.durability == 0) = true
    · rw [if_pos hdur] at h
      cases h
      have hsub : List.Sublist
          ((s.vehicles.filter (fun w => !(w.id == u.id))).map (fun x => x.id))
          (s.vehicles.map (fun x => x.id)) :=
        List.Sublist.map _ (List.filter_sublist _)
      have hndf := List.Nodup.sublist hsub hnd1
      refine ⟨hndf, ?_, ?_, ?_⟩
      · exact List.Nodup.sublist (List.Sublist.map _ (cellPop_sublist _ _ _)) hnd2
      · intro e he
        obtain ⟨he0, hne⟩ := (hpop e).mp he
        obtain ⟨w, hw, hp, hc⟩ := h3 e he0
        obtain ⟨hwmem, hwid⟩ := find?_some_id _ _ _ hw
        have hmemf : w ∈ s.vehicles.filter (fun w => !(w.id == u.id)) := by
          rw [List.mem_filter]
          refine ⟨hwmem, ?_⟩
          simp only [Bool.not_eq_eq_eq_not, Bool.not_true, beq_eq_false_iff_ne]
          rw [hwid]
          exact fun hh => hne (by rw [hh, ← hvid])
        have hfw := find?_first_of_nodup _ hndf w hmemf
        refine ⟨w, ?_, hp, hc⟩
        show (s.vehicles.filter (fun w => !(w.id == u.id))).find? (fun x => x.id == e.2) =
          some w
        rw [← hwid]
        exact hfw
      · intro w hw hop
        rw [List.mem_filter] at hw
        obtain ⟨hwm, hwc⟩ := hw
        have hwne : w.id ≠ u.id := by simpa using hwc
        have hmem := h4 w hwm hop
        refine (hpop _).mpr ⟨hmem, ?_⟩
        show w.id ≠ v.id
        rw [hvid]
        exact hwne
    · rw [if_neg hdur] at h
      cases h
      have hv'id : (updated_vehicle v u).id = u.id := hvid
      have hids : ((s.vehicles.map
            (fun w => if w.id == u.id then updated_vehicle v u else w)).map
              (fun x => x.id)) = s.vehicles.map (fun x => x.id) := by
        rw [List.map_map]
        apply List.map_congr_left
        intro a ha
        by_cases hc : (a.id == u.id) = true
        · simp only [Function.comp_apply, if_pos hc]
          have hae : a.id = u.id := by simpa using hc
          exact hv'id.trans hae.symm
        · simp only [Function.comp_apply, if_neg hc]
      have hnd1' : ((s.vehicles.map
          (fun w => if w.id == u.id then updated_vehicle v u else w)).map
            (fun x => x.id)).Nodup := by
        rw [hids]
        exact hnd1
      have hv'mem : updated_vehicle v u ∈
          s.vehicles.map (fun w => if w.id == u.id then updated_vehicle v u else w) := by
        rw [List.mem_map]
        refine ⟨v, hvmem, ?_⟩
        have hb : (v.id == u.id) = true := by simpa using hvid
        rw [if_pos hb]
      have hfind1 : ∀ (idq : Nat) (w : Vehicle), idq ≠ u.id →
          s.vehicles.find? (fun x => x.id == idq) = some w →
          (s.vehicles.map (fun w0 => if w0.id == u.id then updated_vehicle v u else w0)).find?
            (fun x => x.id == idq) = some w := by
        intro idq w hne hw
        obtain ⟨hwm, hwid⟩ := find?_some_id _ _ _ hw
        have hwmem' : w ∈
            s.vehicles.map (fun w0 => if w0.id == u.id then updated_vehicle v u else w0) := by
          rw [List.mem_map]
          refine ⟨w, hwm, ?_⟩
          rw [if_neg (by simp only [beq_iff_eq]; rw [hwid]; exact fun hh => hne hh)]
        have hfw := find?_first_of_nodup _ hnd1' w hwmem'
        rw [← hwid]
        exact hfw
      have hpop_not : ((get_cell_index (updated_vehicle v u)), (updated_vehicle v u).id) ∉
          cellPop s.cells (get_cell_index v) v.id := by
        intro hm
        have := ((hpop _).mp hm).2
        exact this rfl
      refine ⟨hnd1', ?_, ?_, ?_⟩
      · show (List.map (fun e => e.2)
            (if (updated_vehicle v u).player_id == opp then
              cellInsert (cellPop s.cells (get_cell_index v) v.id)
                (get_cell_index (updated_vehicle v u)) (updated_vehicle v u).id
            else cellPop s.cells (get_cell_index v) v.id)).Nodup
        by_cases hg : ((updated_vehicle v u).player_id == opp) = true
        · rw [if_pos hg]
          unfold cellInsert
          rw [if_neg hpop_not]
          simp only [List.map_append, List.map_cons, List.map_nil]
          rw [List.nodup_append]
          refine ⟨List.Nodup.sublist (List.Sublist.map _ (cellPop_sublist _ _ _)) hnd2,
            List.nodup_singleton _, ?_⟩
          intro a ha hb
          simp only [List.mem_singleton] at hb
          rw [List.mem_map] at ha
          obtain ⟨e, he, heq⟩ := ha
          have := ((hpop e).mp he).2
          rw [heq, hb] at this
          exact this rfl
        · rw [if_neg hg]
          exact List.Nodup.sublist (List.Sublist.map _ (cellPop_sublist _ _ _)) hnd2
      · intro e he
        have hcase : e ∈ cellPop s.cells (get_cell_index v) v.id ∨
            e = ((get_cell_index (updated_vehicle v u)), (updated_vehicle v u).id) := by
          by_cases hg : ((updated_vehicle v u).player_id == opp) = true
          · rw [if_pos hg] at he
            exact (mem_cellInsert _ _ _ e).mp he
          · rw [if_neg hg] at he
            exact Or.inl he
        rcases hcase with h1 | h1
        · obtain ⟨he0, hne⟩ := (hpop e).mp h1
          obtain ⟨w, hw, hp, hc⟩ := h3 e he0
          refine ⟨w, ?_, hp, hc⟩
          show (s.vehicles.map
              (fun w0 => if w0.id == u.id then updated_vehicle v u else w0)).find?
            (fun x => x.id == e.2) = some w
          exact hfind1 e.2 w (fun hh => hne (by rw [hh, ← hvid])) hw
        · subst h1
          refine ⟨updated_vehicle v u, ?_, ?_, rfl⟩
          · show (s.vehicles.map
                (fun w0 => if w0.id == u.id then updated_vehicle v u else w0)).find?
              (fun x => x.id == (updated_vehicle v u).id) = some (updated_vehicle v u)
            exact find?_first_of_nodup _ hnd1' _ hv'mem
          · by_cases hg : ((updated_vehicle v u).player_id == opp) = true
            · simpa using hg
            · exfalso
              rw [if_neg hg] at he
              have := ((hpop _).mp he).2
              exact this rfl
      · intro w hw hop
        rw [List.mem_map] at hw
        obtain ⟨w0, hw0, hfw⟩ := hw
        by_cases hc : (w0.id == u.id) = true
        · rw [if_pos hc] at hfw
          subst hfw
          have hg : ((updated_vehicle v u).player_id == opp) = true := by simpa using hop
          rw [if_pos hg]
          exact (mem_cellInsert _ _ _ _).mpr (Or.inr rfl)
        · rw [if_neg hc] at hfw
          rw [← hfw] at hop ⊢
          have hmem := h4 w0 hw0 hop
          have hin : ((get_cell_index w0, w0.id)) ∈ cellPop s.cells (get_cell_index v) v.id := by
            refine (hpop _).mpr ⟨hmem, ?_⟩
            show w0.id ≠ v.id
            rw [hvid]
            simpa using hc
          by_cases hg : ((updated_vehicle v u).player_id == opp) = true
          · rw [if_pos hg]
            exact (mem_cellInsert _ _ _ _).mpr (Or.inl hin)
          · rw [if_neg hg]
            exact hin

theorem DurInv_add_new (opp : Nat) :
    ∀ (news : List Vehicle) (s : TrackerState), DurInv s →
      (∀ v ∈ news, v.durability ≠ 0) → DurInv (add_new_vehicles opp s news) := by
  intro news
  induction news with
  | nil => exact fun s h _ => h
  | cons v rest ih =>
    intro s hs hn
    have hstep : add_new_vehicles opp s (v :: rest) =
        add_new_vehicles opp (add_new_vehicles opp s [v]) rest := rfl
    rw [hstep]
    apply ih
    · intro w hw
      have hw' : w ∈ dictInsert s.vehicles v := hw
      rcases mem_dictInsert s.vehicles v w hw' with h1 | h1
      · exact hs w h1
      · rw [h1]
        exact Nat.pos_of_ne_zero (hn v (List.mem_cons_self _ _))
    · exact fun w hw => hn w (List.mem_cons_of_mem _ hw)

theorem DurInv_apply_update (opp : Nat) (s s' : TrackerState) (u : VehicleUpdate)
    (h : apply_update opp s u = some s') (hd : DurInv s) : DurInv s' := by
  unfold apply_update at h
  split at h
  · exact Option.noConfusion h
  · rename_i v hf
    by_cases hdur : (u.durability == 0) = true
    · rw [if_pos hdur] at h
      cases h
      intro w hw
      rw [List.mem_filter] at hw
      exact hd w hw.1
    · rw [if_neg hdur] at h
      cases h
      intro w hw
      rw [List.mem_map] at hw
      obtain ⟨w0, hw0, hfw⟩ := hw
      by_cases hc : (w0.id == u.id) = true
      · rw [if_pos hc] at hfw
        rw [← hfw]
        show 0 < u.durability
        exact Nat.pos_of_ne_zero (by simpa using hdur)
      · rw [if_neg hc] at hfw
        rw [← hfw]
        exact hd w0 hw0

theorem ids_apply_update_sub (opp : Nat) (s s' : TrackerState) (u : VehicleUpdate)
    (h : apply_update opp s u = some s') :
    ∀ i, i ∈ s'.vehicles.map (fun v => v.id) → i ∈ s.vehicles.map (fun v => v.id) := by
  unfold apply_update at h
  split at h
  · exact Option.noConfusion h
  · rename_i v hf
    obtain ⟨hvmem, hvid⟩ := find?_some_id _ _ _ hf
    by_cases hdur : (u.durability == 0) = true
    · rw [if_pos hdur] at h
      cases h
      intro i hi
      rw [List.mem_map] at hi ⊢
      obtain ⟨w, hw, hwe⟩ := hi
      rw [List.mem_filter] at hw
      exact ⟨w, hw.1, hwe⟩
    · rw [if_neg hdur] at h
      cases h
      intro i hi
      rw [List.mem_map] at hi ⊢
      obtain ⟨w, hw, hwe⟩ := hi
      rw [List.mem_map] at hw
      obtain ⟨w0, hw0, hfw⟩ := hw
      by_cases hc : (w0.id == u.id) = true
      · rw [if_pos hc] at hfw
        refine ⟨v, hvmem, ?_⟩
        rw [← hwe, ← hfw]
        show v.id = (updated_vehicle v u).id
        rfl
      · rw [if_neg hc] at hfw
        exact ⟨w0, hw0, by rw [← hwe, ← hfw]⟩

theorem update_fold_none (opp : Nat) : ∀ (ups : List VehicleUpdate),
    ups.foldl (fun acc u => acc.bind (fun t => apply_update opp t u)) none = none := by
  intro ups
  induction ups with
  | nil => rfl
  | cons u rest ih =>
    rw [List.foldl_cons]
    exact ih

theorem update_fold_ind (opp : Nat) (P : TrackerState → Prop)
    (step : ∀ t u t', P t → apply_update opp t u = some t' → P t') :
    ∀ (ups : List VehicleUpdate) (s0 s' : TrackerState), P s0 →
      ups.foldl (fun acc u => acc.bind (fun t => apply_update opp t u)) (some s0) = some s' →
      P s' := by
  intro ups
  induction ups with
  | nil =>
    intro s0 s' h0 hh
    injection hh with hh
    rw [← hh]
    exact h0
  | cons u rest ih =>
    intro s0 s' h0 hh
    rw [List.foldl_cons] at hh
    cases ha : apply_update opp s0 u with
    | none =>
      rw [show ((some s0).bind fun t => apply_update opp t u) = none from ha] at hh
      rw [update_fold_none opp rest] at hh
      exact Option.noConfusion hh
    | some t1 =>
      rw [show ((some s0).bind fun t => apply_update opp t u) = some t1 from ha] at hh
      exact ih t1 s' (step s0 u t1 h0 ha) hh

theorem GridInv_update_vehicles (opp : Nat) (s s' : TrackerState) (ups : List VehicleUpdate)
    (h : update_vehicles opp s ups = some s') (hinv : GridInv opp s) : GridInv opp s' :=
  update_fold_ind opp (GridInv opp)
    (fun t u t' ht hu => GridInv_apply_update opp t t' u hu ht) ups
    { s with moving_vehicles := [] } s' hinv h

theorem DurInv_update_vehicles (opp : Nat) (s s' : TrackerState) (ups : List VehicleUpdate)
    (h : update_vehicles opp s ups = some s') (hd : DurInv s) : DurInv s' :=
  update_fold_ind opp DurInv
    (fun t u t' ht hu => DurInv_apply_update opp t t' u hu ht) ups
    { s with moving_vehicles := [] } s' hd h

theorem ids_update_vehicles_not_mem (opp : Nat) (s s' : TrackerState)
    (ups : List VehicleUpdate) (h : update_vehicles opp s ups = some s') (i : Nat)
    (hi : i ∉ s.vehicles.map (fun v => v.id)) : i ∉ s'.vehicles.map (fun v => v.id) :=
  update_fold_ind opp (fun t => i ∉ t.vehicles.map (fun v => v.id))
    (fun t u t' ht hu hmem => ht (ids_apply_update_sub opp t t' u hu i hmem)) ups
    { s with moving_vehicles := [] } s' hi h

theorem mem_ids_add (opp : Nat) :
    ∀ (news : List Vehicle) (s : TrackerState) (i : Nat),
      i ∈ (add_new_vehicles opp s news).vehicles.map (fun v => v.id) →
      i ∈ s.vehicles.map (fun v => v.id) ∨ ∃ w ∈ news, w.id = i := by
  intro news
  induction news with
  | nil => exact fun s i h => Or.inl h
  | cons v rest ih =>
    intro s i hi
    have hstep : add_new_vehicles opp s (v :: rest) =
        add_new_vehicles opp (add_new_vehicles opp s [v]) rest := rfl
    rw [hstep] at hi
    rcases ih _ i hi with h1 | h1
    · rw [List.mem_map] at h1
      obtain ⟨w, hw, hwe⟩ := h1
      have hw' : w ∈ dictInsert s.vehicles v := hw
      rcases mem_dictInsert s.vehicles v w hw' with h2 | h2
      · exact Or.inl (List.mem_map.mpr ⟨w, h2, hwe⟩)
      · exact Or.inr ⟨v, List.mem_cons_self _ _, by rw [← h2, hwe]⟩
    · obtain ⟨w, hw, hwe⟩ := h1
      exact Or.inr ⟨w, List.mem_cons_of_mem _ hw, hwe⟩

theorem wf_snapshot_parts (s : TrackerState) (snap : Snapshot)
    (h : wf_snapshot s snap = true) :
    (snap.new_vehicles.map (fun v => v.id)).Nodup ∧
      (∀ v ∈ snap.new_vehicles, s.find? v.id = none) ∧
      (∀ v ∈ snap.new_vehicles, v.durability ≠ 0) := by
  unfold wf_snapshot at h
  rw [Bool.and_eq_true] at h
  obtain ⟨h1, h2⟩ := h
  rw [List.all_eq_true] at h2
  refine ⟨by simpa using h1, ?_, ?_⟩
  · intro v hv
    have := h2 v hv
    rw [Bool.and_eq_true] at this
    exact Option.isNone_iff_eq_none.mp this.1
  · intro v hv
    have := h2 v hv
    rw [Bool.and_eq_true] at this
    simpa using this.2

theorem GridInv_apply_deltas (opp : Nat) (s s' : TrackerState) (snap : Snapshot)
    (hw : wf_snapshot s snap = true) (h : apply_deltas opp s snap = some s')
    (hinv : GridInv opp s) : GridInv opp s' := by
  obtain ⟨hnodup, hfresh, -⟩ := wf_snapshot_parts s snap hw
  exact GridInv_update_vehicles opp _ s' snap.vehicle_updates h
    (GridInv_add_new opp snap.new_vehicles s hinv hnodup hfresh)

theorem DurInv_apply_deltas (opp : Nat) (s s' : TrackerState) (snap : Snapshot)
    (hw : wf_snapshot s snap = true) (h : apply_deltas opp s snap = some s')
    (hd : DurInv s) : DurInv s' := by
  obtain ⟨-, -, hdur⟩ := wf_snapshot_parts s snap hw
  exact DurInv_update_vehicles opp _ s' snap.vehicle_updates h
    (DurInv_add_new opp snap.new_vehicles s hd hdur)

theorem run_invariants (opp : Nat) :
    ∀ (snaps : List Snapshot) (s s' : TrackerState), GridInv opp s → DurInv s →
      wf_run opp snaps s = true → apply_all opp snaps s = some s' →
      GridInv opp s' ∧ DurInv s' := by
  intro snaps
  induction snaps with
  | nil =>
    intro s s' hg hd _ h
    injection h with h
    rw [← h]
    exact ⟨hg, hd⟩
  | cons snap rest ih =>
    intro s s' hg hd hwf h
    unfold apply_all at h
    cases ha : apply_deltas opp s snap with
    | none => rw [ha] at h; exact Option.noConfusion h
    | some s1 =>
      rw [ha] at h
      unfold wf_run at hwf
      rw [Bool.and_eq_true, ha] at hwf
      exact ih s1 s' (GridInv_apply_deltas opp s s1 snap hwf.1 ha hg)
        (DurInv_apply_deltas opp s s1 snap hwf.1 ha hd) hwf.2 h

theorem GridInv_initState (opp : Nat) : GridInv opp initState := by
  refine ⟨?_, ?_, ?_, ?_⟩ <;> simp [initState, cell_ids]

theorem DurInv_initState : DurInv initState := by
  intro v hv
  simp [initState] at hv

/-- Claim C1: after `apply_deltas` has processed any well-formed snapshot
stream from the initial state, every tracked opponent unit sits in exactly
the one grid cell `(floor(x / cellSize), floor(y / cellSize))` of its latest
position (membership in any other cell is ruled out by the iff), own-side
units appear in no grid cell, and every grid entry is backed by a live
tracked opponent unit at exactly that cell (no stale entries). -/
theorem claim_C1_grid_index_invariant (opp : Nat) (snaps : List Snapshot) (s' : TrackerState)
    (hwf : wf_run opp snaps initState = true)
    (h : apply_all opp snaps initState = some s') :
    (∀ v ∈ s'.vehicles,
        (v.player_id = opp → ∀ c : Int × Int,
          ((c, v.id) ∈ s'.cells ↔ c = (⌊v.x / CELL_SIZE⌋, ⌊v.y / CELL_SIZE⌋))) ∧
          (v.player_id ≠ opp → ∀ c : Int × Int, (c, v.id) ∉ s'.cells)) ∧
      ∀ e ∈ s'.cells, ∃ v ∈ s'.vehicles,
        v.id = e.2 ∧ v.player_id = opp ∧ e.1 = (⌊v.x / CELL_SIZE⌋, ⌊v.y / CELL_SIZE⌋) := by
  obtain ⟨⟨hnd1, hnd2, h3, h4⟩, -⟩ :=
    run_invariants opp snaps initState s' (GridInv_initState opp) DurInv_initState hwf h
  constructor
  · intro v hv
    have hfv : s'.find? v.id = some v := find?_first_of_nodup s'.vehicles hnd1 v hv
    constructor
    · intro hop c
      constructor
      · intro hc
        obtain ⟨w, hw, -, hcell⟩ := h3 (c, v.id) hc
        have hwv : w = v := by
          have h2 := hfv.symm.trans hw
          injection h2 with h2
          exact h2.symm
        exact hcell.symm.trans (congrArg get_cell_index hwv)
      · intro hc
        rw [hc]
        exact h4 v hv hop
    · intro hop c hc
      obtain ⟨w, hw, hp, -⟩ := h3 (c, v.id) hc
      have hwv : w = v := by
        have h2 := hfv.symm.trans hw
        injection h2 with h2
        exact h2.symm
      rw [hwv] at hp
      exact hop hp
  · intro e he
    obtain ⟨w, hw, hp, hc⟩ := h3 e he
    obtain ⟨hwm, hwid⟩ := find?_some_id _ _ _ hw
    exact ⟨w, hwm, hwid, hp, hc.symm⟩

/-- Witness for C1: one snapshot announcing one opponent unit leaves a state
whose single grid entry is backed by that unit at its cell. -/
theorem claim_C1_grid_index_invariant_witness :
    ∃ v ∈ (⟨[demo_opp_vehicle], [(get_cell_index demo_opp_vehicle, 2)], [], []⟩ :
        TrackerState).vehicles,
      v.id = ((get_cell_index demo_opp_vehicle, 2) : (Int × Int) × Nat).2 ∧
        v.player_id = 2 ∧
        ((get_cell_index demo_opp_vehicle, 2) : (Int × Int) × Nat).1 =
          (⌊v.x / CELL_SIZE⌋, ⌊v.y / CELL_SIZE⌋) :=
  (claim_C1_grid_index_invariant 2 [⟨[demo_opp_vehicle], []⟩]
      (⟨[demo_opp_vehicle], [(get_cell_index demo_opp_vehicle, 2)], [], []⟩ : TrackerState)
      (by rfl) rfl).2
    ((get_cell_index demo_opp_vehicle, 2) : (Int × Int) × Nat) (by simp)

/-- Claim C4: along any well-formed snapshot stream, every tracked unit keeps
positive durability; a durability-0 update removes the referenced unit from
the unit table and from every grid cell; and a removed id cannot reappear
from further snapshots unless a later new-unit event carries that id. -/
theorem claim_C4_terminal_update_removal (opp : Nat) (snaps : List Snapshot) (s' : TrackerState)
    (hwf : wf_run opp snaps initState = true)
    (h : apply_all opp snaps initState = some s') :
    (∀ v ∈ s'.vehicles, 0 < v.durability) ∧
      (∀ (u : VehicleUpdate) (s'' : TrackerState), u.durability = 0 →
        apply_update opp s' u = some s'' →
        (∀ v ∈ s''.vehicles, v.id ≠ u.id) ∧ ∀ e ∈ s''.cells, e.2 ≠ u.id) ∧
      (∀ (snap : Snapshot) (s'' : TrackerState) (i : Nat),
        apply_deltas opp s' snap = some s'' →
        i ∉ s'.vehicles.map (fun v => v.id) → (∀ w ∈ snap.new_vehicles, w.id ≠ i) →
        i ∉ s''.vehicles.map (fun v => v.id)) := by
  obtain ⟨hg, hd⟩ :=
    run_invariants opp snaps initState s' (GridInv_initState opp) DurInv_initState hwf h
  refine ⟨hd, ?_, ?_⟩
  · intro u s'' hdur0 hap
    obtain ⟨hnd1, hnd2, h3, h4⟩ := hg
    unfold apply_update at hap
    split at hap
    · exact Option.noConfusion hap
    · rename_i v hf
      obtain ⟨hvmem, hvid⟩ := find?_some_id _ _ _ hf
      have hdur : (u.durability == 0) = true := by simpa using hdur0
      rw [if_pos hdur] at hap
      cases hap
      constructor
      · intro w hw
        rw [List.mem_filter] at hw
        simpa using hw.2
      · intro e he
        have := ((cellPop_mem_iff opp s' v ⟨hnd1, hnd2, h3, h4⟩ hvmem e).mp he).2
        rw [← hvid]
        exact this
  · intro snap s'' i hap hi hnew
    unfold apply_deltas at hap
    apply ids_update_vehicles_not_mem opp _ s'' snap.vehicle_updates hap
    intro hmem
    rcases mem_ids_add opp snap.new_vehicles s' i hmem with h1 | h1
    · exact hi h1
    · obtain ⟨w, hw, hwe⟩ := h1
      exact hnew w hw hwe

/-- Witness for C4: after the one-snapshot demo run the tracked unit is
alive. -/
theorem claim_C4_terminal_update_removal_witness : 0 < demo_opp_vehicle.durability :=
  (claim_C4_terminal_update_removal 2 [⟨[demo_opp_vehicle], []⟩]
      (⟨[demo_opp_vehicle], [(get_cell_index demo_opp_vehicle, 2)], [], []⟩ : TrackerState)
      (by rfl) rfl).1 demo_opp_vehicle (by decide)

/-! ### Minimum-distance guard -/

theorem foldl_min_q_le : ∀ (xs : List ℚ) (a z : ℚ), z ∈ a :: xs → xs.foldl min a ≤ z := by
  intro xs
  induction xs with
  | nil =>
    intro a z hz
    simp only [List.mem_singleton] at hz
    rw [hz]
    exact le_refl a
  | cons y ys ih =>
    intro a z hz
    rw [List.foldl_cons]
    rcases List.mem_cons.mp hz with h | h
    · rw [h]
      exact le_trans (ih (min a y) _ (List.mem_cons_self _ _)) (min_le_left a y)
    · rcases List.mem_cons.mp h with h2 | h2
      · rw [h2]
        exact le_trans (ih (min a y) _ (List.mem_cons_self _ _)) (min_le_right a y)
      · exact ih (min a y) z (List.mem_cons_of_mem _ h2)

theorem foldl_min_q_mem : ∀ (xs : List ℚ) (a : ℚ), xs.foldl min a ∈ a :: xs := by
  intro xs
  induction xs with
  | nil => intro a; simp
  | cons y ys ih =>
    intro a
    rw [List.foldl_cons]
    rcases List.mem_cons.mp (ih (min a y)) with h | h
    · rcases min_choice a y with hm | hm
      · rw [h, hm]
        exact List.mem_cons_self _ _
      · rw [h, hm]
        exact List.mem_cons_of_mem _ (List.mem_cons_self _ _)
    · exact List.mem_cons_of_mem _ (List.mem_cons_of_mem _ h)

theorem listMinQ_le (l : List ℚ) (q : ℚ) (h : listMinQ l = some q) : ∀ y ∈ l, q ≤ y := by
  cases l with
  | nil => exact Option.noConfusion h
  | cons x xs =>
    simp only [listMinQ, Option.some.injEq] at h
    intro y hy
    rw [← h]
    exact foldl_min_q_le xs x y hy

theorem listMinQ_mem (l : List ℚ) (q : ℚ) (h : listMinQ l = some q) : q ∈ l := by
  cases l with
  | nil => exact Option.noConfusion h
  | cons x xs =>
    simp only [listMinQ, Option.some.injEq] at h
    rw [← h]
    exact foldl_min_q_mem xs x

theorem listMinQ_isSome (l : List ℚ) (h : l ≠ []) : ∃ q, listMinQ l = some q := by
  cases l with
  | nil => exact absurd rfl h
  | cons x xs => exact ⟨xs.foldl min x, rfl⟩

theorem sqdist_comm (a b : Vehicle) :
    a.get_squared_distance_to_unit b = b.get_squared_distance_to_unit a := by
  unfold Vehicle.get_squared_distance_to_unit Vehicle.get_squared_distance_to
  ring

theorem mem_min_dist_values (members : (Int × Int) → List Vehicle) (c d : Int × Int) (q : ℚ) :
    q ∈ (List.product (members c) (members d)).map
        (fun p => p.1.get_squared_distance_to_unit p.2) ↔
      ∃ a ∈ members c, ∃ b ∈ members d, q = a.get_squared_distance_to_unit b := by
  rw [List.mem_map]
  constructor
  · rintro ⟨⟨a, b⟩, hab, hq⟩
    rw [List.pair_mem_product] at hab
    exact ⟨a, hab.1, b, hab.2, hq.symm⟩
  · rintro ⟨a, ha, b, hb, hq⟩
    exact ⟨(a, b), List.pair_mem_product.mpr ⟨ha, hb⟩, hq.symm⟩

theorem get_minimum_squared_distance_le (members : (Int × Int) → List Vehicle)
    (c d : Int × Int) (q : ℚ) (h : get_minimum_squared_distance members c d = some q) :
    ∀ a ∈ members c, ∀ b ∈ members d, q ≤ a.get_squared_distance_to_unit b := by
  intro a ha b hb
  refine listMinQ_le _ q h _ ?_
  exact (mem_min_dist_values members c d _).mpr ⟨a, ha, b, hb, rfl⟩

theorem get_minimum_squared_distance_isSome (members : (Int × Int) → List Vehicle)
    (c d : Int × Int) (a b : Vehicle) (ha : a ∈ members c) (hb : b ∈ members d) :
    ∃ q, get_minimum_squared_distance members c d = some q := by
  apply listMinQ_isSome
  intro hnil
  have : a.get_squared_distance_to_unit b ∈ ([] : List ℚ) := by
    rw [← hnil]
    exact (mem_min_dist_values members c d _).mpr ⟨a, ha, b, hb, rfl⟩
  cases this

theorem get_minimum_squared_distance_comm (members : (Int × Int) → List Vehicle)
    (c d : Int × Int) :
    get_minimum_squared_distance members c d = get_minimum_squared_distance members d c := by
  cases h1 : get_minimum_squared_distance members c d with
  | none =>
    cases h2 : get_minimum_squared_distance members d c with
    | none => rfl
    | some q2 =>
      exfalso
      have hm := listMinQ_mem _ _ h2
      rw [mem_min_dist_values] at hm
      obtain ⟨a, ha, b, hb, -⟩ := hm
      obtain ⟨q1, hq1⟩ := get_minimum_squared_distance_isSome members c d b a hb ha
      rw [hq1] at h1
      exact Option.noConfusion h1
  | some q1 =>
    have hm1 := listMinQ_mem _ _ h1
    rw [mem_min_dist_values] at hm1
    obtain ⟨a, ha, b, hb, hq1v⟩ := hm1
    obtain ⟨q2, hq2⟩ := get_minimum_squared_distance_isSome members d c b a hb ha
    rw [hq2]
    have hm2 := listMinQ_mem _ _ hq2
    rw [mem_min_dist_values] at hm2
    obtain ⟨a2, ha2, b2, hb2, hq2v⟩ := hm2
    have h12 : q1 ≤ q2 := by
      rw [hq2v, sqdist_comm]
      exact get_minimum_squared_distance_le members c d q1 h1 b2 hb2 a2 ha2
    have h21 : q2 ≤ q1 := by
      rw [hq1v, sqdist_comm]
      exact get_minimum_squared_distance_le members d c q2 hq2 b hb a ha
    rw [le_antisymm h12 h21]

theorem min_distance_lt_comm (members : (Int × Int) → List Vehicle) (c d : Int × Int) :
    min_distance_lt members c d = min_distance_lt members d c := by
  unfold min_distance_lt
  rw [get_minimum_squared_distance_comm]

theorem SCAN_DELTAS_neg (p : Int × Int) (h : p ∈ SCAN_DELTAS) :
    (-p.1, -p.2) ∈ SCAN_DELTAS := by
  fin_cases h <;> decide

theorem cells_linked_symm (members : (Int × Int) → List Vehicle) (c d : Int × Int)
    (h : cells_linked members c d) : cells_linked members d c := by
  obtain ⟨h1, h2⟩ := h
  constructor
  · have := SCAN_DELTAS_neg _ h1
    have he1 : c.1 - d.1 = -(d.1 - c.1) := by ring
    have he2 : c.2 - d.2 = -(d.2 - c.2) := by ring
    rw [he1, he2]
    exact this
  · rw [min_distance_lt_comm]
    exact h2

theorem min_distance_lt_of_members (members : (Int × Int) → List Vehicle) (c d : Int × Int)
    (a b : Vehicle) (ha : a ∈ members c) (hb : b ∈ members d)
    (hd : a.get_squared_distance_to_unit b < CELL_SIZE_SQUARED) :
    min_distance_lt members c d = true := by
  obtain ⟨q, hq⟩ := get_minimum_squared_distance_isSome members c d a b ha hb
  unfold min_distance_lt
  rw [hq]
  simp only [decide_eq_true_eq]
  exact lt_of_le_of_lt (get_minimum_squared_distance_le members c d q hq a ha b hb) hd

/-! ### Scan-loop lemmas -/

theorem scanStep_avail_sub (members : (Int × Int) → List Vehicle) (c : Int × Int)
    (st : List (Int × Int) × List (Int × Int)) (d : Int × Int) (x : Int × Int)
    (h : x ∈ (scanStep members c st d).1) : x ∈ st.1 := by
  unfold scanStep at h
  split at h
  · exact List.mem_of_mem_erase h
  · exact h

theorem scanStep_nodup (members : (Int × Int) → List Vehicle) (c : Int × Int)
    (st : List (Int × Int) × List (Int × Int)) (d : Int × Int) (h : st.1.Nodup) :
    (scanStep members c st d).1.Nodup := by
  unfold scanStep
  split
  · exact List.Nodup.erase _ h
  · exact h

theorem scanStep_queue_mono (members : (Int × Int) → List Vehicle) (c : Int × Int)
    (st : List (Int × Int) × List (Int × Int)) (d : Int × Int) (x : Int × Int)
    (h : x ∈ st.2) : x ∈ (scanStep members c st d).2 := by
  unfold scanStep
  split
  · exact List.mem_append_left _ h
  · exact h

theorem scanStep_cover (members : (Int × Int) → List Vehicle) (c : Int × Int)
    (st : List (Int × Int) × List (Int × Int)) (d : Int × Int) (x : Int × Int)
    (h : x ∈ st.1) : x ∈ (scanStep members c st d).1 ∨ x ∈ (scanStep members c st d).2 := by
  unfold scanStep
  split
  · by_cases hx : x = (c.1 + d.1, c.2 + d.2)
    · right
      rw [hx]
      exact List.mem_append_right _ (by simp)
    · left
      exact (List.mem_erase_of_ne hx).mpr h
  · left
    exact h

theorem scanStep_queue_src (members : (Int × Int) → List Vehicle) (c : Int × Int)
    (st : List (Int × Int) × List (Int × Int)) (d : Int × Int) (x : Int × Int)
    (h : x ∈ (scanStep members c st d).2) :
    x ∈ st.2 ∨ (x = (c.1 + d.1, c.2 + d.2) ∧ min_distance_lt members c x = true ∧ x ∈ st.1) := by
  unfold scanStep at h
  split at h
  · rename_i hcond
    rcases List.mem_append.mp h with h1 | h1
    · exact Or.inl h1
    · have hx : x = (c.1 + d.1, c.2 + d.2) := by simpa using h1
      refine Or.inr ⟨hx, ?_, ?_⟩
      · rw [hx]
        exact hcond.2
      · rw [hx]
        exact hcond.1
  · exact Or.inl h

theorem scanStep_inv (members : (Int × Int) → List Vehicle) (c : Int × Int)
    (st : List (Int × Int) × List (Int × Int)) (d : Int × Int)
    (h : st.1.Nodup ∧ ∀ q ∈ st.2, q ∉ st.1) :
    (scanStep members c st d).1.Nodup ∧
      ∀ q ∈ (scanStep members c st d).2, q ∉ (scanStep members c st d).1 := by
  refine ⟨scanStep_nodup members c st d h.1, ?_⟩
  intro q hq hq1
  unfold scanStep at hq hq1
  split at hq
  · rename_i hcond
    rw [if_pos hcond] at hq1
    rcases List.mem_append.mp hq with h1 | h1
    · exact h.2 q h1 (List.mem_of_mem_erase hq1)
    · have hx : q = (c.1 + d.1, c.2 + d.2) := by simpa using h1
      rw [List.Nodup.mem_erase_iff h.1] at hq1
      exact hq1.1 hx
  · rename_i hcond
    rw [if_neg hcond] at hq1
    exact h.2 q hq hq1

theorem scanFold_avail_sub (members : (Int × Int) → List Vehicle) (c : Int × Int) :
    ∀ (ds : List (Int × Int)) (st : List (Int × Int) × List (Int × Int)) (x : Int × Int),
      x ∈ (List.foldl (scanStep members c) st ds).1 → x ∈ st.1 := by
  intro ds
  induction ds with
  | nil => exact fun st x h => h
  | cons d ds ih =>
    intro st x h
    rw [List.foldl_cons] at h
    exact scanStep_avail_sub members c st d x (ih _ x h)

theorem scanFold_queue_mono (members : (Int × Int) → List Vehicle) (c : Int × Int) :
    ∀ (ds : List (Int × Int)) (st : List (Int × Int) × List (Int × Int)) (x : Int × Int),
      x ∈ st.2 → x ∈ (List.foldl (scanStep members c) st ds).2 := by
  intro ds
  induction ds with
  | nil => exact fun st x h => h
  | cons d ds ih =>
    intro st x h
    rw [List.foldl_cons]
    exact ih _ x (scanStep_queue_mono members c st d x h)

theorem scanFold_cover (members : (Int × Int) → List Vehicle) (c : Int × Int) :
    ∀ (ds : List (Int × Int)) (st : List (Int × Int) × List (Int × Int)) (x : Int × Int),
      x ∈ st.1 →
      x ∈ (List.foldl (scanStep members c) st ds).1 ∨
        x ∈ (List.foldl (scanStep members c) st ds).2 := by
  intro ds
  induction ds with
  | nil => exact fun st x h => Or.inl h
  | cons d ds ih =>
    intro st x h
    rw [List.foldl_cons]
    rcases scanStep_cover members c st d x h with h1 | h1
    · exact ih _ x h1
    · exact Or.inr (scanFold_queue_mono members c ds _ x h1)

theorem scanFold_queue_src (members : (Int × Int) → List Vehicle) (c : Int × Int) :
    ∀ (ds : List (Int × Int)) (st : List (Int × Int) × List (Int × Int)) (x : Int × Int),
      x ∈ (List.foldl (scanStep members c) st ds).2 →
      x ∈ st.2 ∨ ((∃ d ∈ ds, x = (c.1 + d.1, c.2 + d.2)) ∧
        min_distance_lt members c x = true ∧ x ∈ st.1) := by
  intro ds
  induction ds with
  | nil => exact fun st x h => Or.inl h
  | cons d ds ih =>
    intro st x h
    rw [List.foldl_cons] at h
    rcases ih _ x h with h1 | h1
    · rcases scanStep_queue_src members c st d x h1 with h2 | h2
      · exact Or.inl h2
      · exact Or.inr ⟨⟨d, List.mem_cons_self _ _, h2.1⟩, h2.2.1, h2.2.2⟩
    · obtain ⟨⟨d0, hd0, hx⟩, hmin, hav⟩ := h1
      exact Or.inr ⟨⟨d0, List.mem_cons_of_mem _ hd0, hx⟩, hmin,
        scanStep_avail_sub members c st d x hav⟩

theorem scanFold_removes (members : (Int × Int) → List Vehicle) (c : Int × Int) :
    ∀ (ds : List (Int × Int)) (st : List (Int × Int) × List (Int × Int)) (x : Int × Int),
      st.1.Nodup → (∃ d ∈ ds, x = (c.1 + d.1, c.2 + d.2)) →
      min_distance_lt members c x = true →
      x ∉ (List.foldl (scanStep members c) st ds).1 := by
  intro ds
  induction ds with
  | nil =>
    rintro st x - ⟨d, hd, -⟩ -
    cases hd
  | cons d ds ih =>
    rintro st x hnd ⟨d0, hd0, hx⟩ hguard
    rw [List.foldl_cons]
    rcases List.mem_cons.mp hd0 with h1 | h1
    · subst h1
      intro hmem
      have hstep : x ∉ (scanStep members c st d0).1 := by
        unfold scanStep
        split
        · rename_i hcond
          rw [← hx]
          rw [List.Nodup.mem_erase_iff hnd]
          rintro ⟨hne, -⟩
          exact hne rfl
        · rename_i hcond
          rw [← hx] at hcond
          intro hmem2
          exact hcond ⟨hmem2, hguard⟩
      exact hstep (scanFold_avail_sub members c ds _ x hmem)
    · exact ih _ x (scanStep_nodup members c st d hnd) ⟨d0, h1, hx⟩ hguard

theorem scanFold_inv (members : (Int × Int) → List Vehicle) (c : Int × Int) :
    ∀ (ds : List (Int × Int)) (st : List (Int × Int) × List (Int × Int)),
      (st.1.Nodup ∧ ∀ q ∈ st.2, q ∉ st.1) →
      ((List.foldl (scanStep members c) st ds).1.Nodup ∧
        ∀ q ∈ (List.foldl (scanStep members c) st ds).2,
          q ∉ (List.foldl (scanStep members c) st ds).1) := by
  intro ds
  induction ds with
  | nil => exact fun st h => h
  | cons d ds ih =>
    intro st h
    rw [List.foldl_cons]
    exact ih _ (scanStep_inv members c st d h)

theorem scanFold_nodup (members : (Int × Int) → List Vehicle) (c : Int × Int) :
    ∀ (ds : List (Int × Int)) (st : List (Int × Int) × List (Int × Int)),
      st.1.Nodup → (List.foldl (scanStep members c) st ds).1.Nodup := by
  intro ds
  induction ds with
  | nil => exact fun st h => h
  | cons d ds ih =>
    intro st h
    rw [List.foldl_cons]
    exact ih _ (scanStep_nodup members c st d h)

theorem scanFold_avail_len (members : (Int × Int) → List Vehicle) (c : Int × Int) :
    ∀ (ds : List (Int × Int)) (st : List (Int × Int) × List (Int × Int)),
      (List.foldl (scanStep members c) st ds).1.length ≤ st.1.length := by
  intro ds
  induction ds with
  | nil => exact fun st => le_refl _
  | cons d ds ih =>
    intro st
    rw [List.foldl_cons]
    refine le_trans (ih _) ?_
    unfold scanStep
    split
    · exact List.length_erase_le _ _
    · exact le_refl _

/-! ### BFS flood-fill lemmas -/

theorem bfs_rest_sub (members : (Int × Int) → List Vehicle) :
    ∀ (avail queue : List (Int × Int)) (x : Int × Int),
      x ∈ (bfs members avail queue).2 → x ∈ avail := by
  intro avail queue
  induction avail, queue using bfs.induct members with
  | case1 avail =>
    intro x h
    simpa [bfs] using h
  | case2 avail c queue p ih =>
    intro x h
    simp only [bfs] at h
    exact scanFold_avail_sub members c SCAN_DELTAS (avail, queue) x (ih x h)

theorem bfs_rest_length (members : (Int × Int) → List Vehicle) :
    ∀ (avail queue : List (Int × Int)), (bfs members avail queue).2.length ≤ avail.length := by
  intro avail queue
  induction avail, queue using bfs.induct members with
  | case1 avail => simp [bfs]
  | case2 avail c queue p ih =>
    simp only [bfs]
    exact le_trans ih (scanFold_avail_len members c SCAN_DELTAS (avail, queue))

theorem bfs_rest_nodup (members : (Int × Int) → List Vehicle) :
    ∀ (avail queue : List (Int × Int)), avail.Nodup → (bfs members avail queue).2.Nodup := by
  intro avail queue
  induction avail, queue using bfs.induct members with
  | case1 avail =>
    intro h
    simpa [bfs] using h
  | case2 avail c queue p ih =>
    intro h
    simp only [bfs]
    exact ih (scanFold_nodup members c SCAN_DELTAS (avail, queue) h)

theorem bfs_queue_vis (members : (Int × Int) → List Vehicle) :
    ∀ (avail queue : List (Int × Int)), ∀ q ∈ queue, q ∈ (bfs members avail queue).1 := by
  intro avail queue
  induction avail, queue using bfs.induct members with
  | case1 avail =>
    intro q hq
    exact absurd hq (List.not_mem_nil q)
  | case2 avail c queue p ih =>
    intro q hq
    simp only [bfs]
    rcases List.mem_cons.mp hq with h | h
    · rw [h]
      exact List.mem_cons_self _ _
    · exact List.mem_cons_of_mem _
        (ih q (scanFold_queue_mono members c SCAN_DELTAS (avail, queue) q h))

theorem bfs_avail_cover (members : (Int × Int) → List Vehicle) :
    ∀ (avail queue : List (Int × Int)) (x : Int × Int), x ∈ avail →
      x ∈ (bfs members avail queue).1 ∨ x ∈ (bfs members avail queue).2 := by
  intro avail queue
  induction avail, queue using bfs.induct members with
  | case1 avail =>
    intro x h
    right
    simpa [bfs] using h
  | case2 avail c queue p ih =>
    intro x h
    simp only [bfs]
    rcases scanFold_cover members c SCAN_DELTAS (avail, queue) x h with h1 | h1
    · rcases ih x h1 with h2 | h2
      · exact Or.inl (List.mem_cons_of_mem _ h2)
      · exact Or.inr h2
    · exact Or.inl (List.mem_cons_of_mem _ (bfs_queue_vis members p.1 p.2 x h1))

theorem delta_of_linked (c e : Int × Int) (h : (e.1 - c.1, e.2 - c.2) ∈ SCAN_DELTAS) :
    ∃ d ∈ SCAN_DELTAS, e = (c.1 + d.1, c.2 + d.2) := by
  refine ⟨(e.1 - c.1, e.2 - c.2), h, ?_⟩
  obtain ⟨e1, e2⟩ := e
  simp only [Prod.mk.injEq]
  constructor <;> ring

theorem bfs_closure (members : (Int × Int) → List Vehicle) :
    ∀ (avail queue : List (Int × Int)), avail.Nodup → (∀ q ∈ queue, q ∉ avail) →
      ∀ x ∈ (bfs members avail queue).1, ∀ e, cells_linked members x e →
        e ∉ (bfs members avail queue).2 := by
  intro avail queue
  induction avail, queue using bfs.induct members with
  | case1 avail =>
    intro _ _ x hx
    simp [bfs] at hx
  | case2 avail c queue p ih =>
    intro hnd hdisj x hx e hlink
    simp only [bfs] at hx ⊢
    have hinv := scanFold_inv members c SCAN_DELTAS (avail, queue)
      ⟨hnd, fun q hq => hdisj q (List.mem_cons_of_mem _ hq)⟩
    rcases List.mem_cons.mp hx with h | h
    · subst h
      intro hmem
      have he1 : e ∈ (List.foldl (scanStep members x) (avail, queue) SCAN_DELTAS).1 :=
        bfs_rest_sub members p.1 p.2 e hmem
      exact scanFold_removes members x SCAN_DELTAS (avail, queue) e hnd
        (delta_of_linked x e hlink.1) hlink.2 he1
    · exact ih hinv.1 hinv.2 x h e hlink

theorem bfs_vis_linked (members : (Int × Int) → List Vehicle) (R : (Int × Int) → Prop)
    (hstep : ∀ a b, R a → cells_linked members a b → R b) :
    ∀ (avail queue : List (Int × Int)), (∀ q ∈ queue, R q) →
      ∀ x ∈ (bfs members avail queue).1, R x := by
  intro avail queue
  induction avail, queue using bfs.induct members with
  | case1 avail =>
    intro _ x hx
    simp [bfs] at hx
  | case2 avail c queue p ih =>
    intro hq x hx
    simp only [bfs] at hx
    rcases List.mem_cons.mp hx with h | h
    · rw [h]
      exact hq c (List.mem_cons_self _ _)
    · refine ih ?_ x h
      intro q hqm
      rcases scanFold_queue_src members c SCAN_DELTAS (avail, queue) q hqm with h1 | h1
      · exact hq q (List.mem_cons_of_mem _ h1)
      · obtain ⟨⟨d, hd, hx'⟩, hmin, -⟩ := h1
        refine hstep c q (hq c (List.mem_cons_self _ _)) ⟨?_, hmin⟩
        rw [hx']
        have hdd : ((c.1 + d.1) - c.1, (c.2 + d.2) - c.2) = d := by
          obtain ⟨d1, d2⟩ := d
          simp only [Prod.mk.injEq]
          constructor <;> ring
        rw [hdd]
        exact hd

/-! ### Split-loop lemmas -/

theorem split_loop_same_cluster (members : (Int × Int) → List Vehicle) :
    ∀ (n : Nat) (cells : List (Int × Int)), cells.length ≤ n → cells.Nodup →
      ∀ (c d : Int × Int), c ∈ cells → d ∈ cells → cells_linked members c d →
      ∀ (u v : Vehicle), u ∈ members c → v ∈ members d →
      ∃ vs ∈ split_loop members cells, u ∈ vs ∧ v ∈ vs := by
  intro n
  induction n with
  | zero =>
    intro cells hlen _ c d hc
    rw [List.length_eq_zero.mp (Nat.le_zero.mp hlen)] at hc
    cases hc
  | succ n ihn =>
    intro cells hlen hnd c d hc hd hlink u v hu hv
    cases cells with
    | nil => cases hc
    | cons c0 cs =>
      rw [List.nodup_cons] at hnd
      have hInvD : ∀ q ∈ [c0], q ∉ cs := by
        intro q hq
        rw [List.mem_singleton] at hq
        rw [hq]
        exact hnd.1
      have hloc : ∀ x, x ∈ c0 :: cs →
          x ∈ (bfs members cs [c0]).1 ∨ x ∈ (bfs members cs [c0]).2 := by
        intro x hx
        rcases List.mem_cons.mp hx with h | h
        · left
          rw [h]
          exact bfs_queue_vis members cs [c0] c0 (by simp)
        · exact bfs_avail_cover members cs [c0] x h
      rcases hloc c hc with hcv | hcr
      · rcases hloc d hd with hdv | hdr
        · have hu' : u ∈ (bfs members cs [c0]).1.flatMap members :=
            List.mem_flatMap.mpr ⟨c, hcv, hu⟩
          have hv' : v ∈ (bfs members cs [c0]).1.flatMap members :=
            List.mem_flatMap.mpr ⟨d, hdv, hv⟩
          refine ⟨(bfs members cs [c0]).1.flatMap members, ?_, hu', hv'⟩
          simp only [split_loop]
          rw [if_neg ?_]
          · exact List.mem_cons_self _ _
          · intro hempty
            rw [List.isEmpty_iff] at hempty
            rw [hempty] at hu'
            cases hu'
        · exact absurd hdr (bfs_closure members cs [c0] hnd.2 hInvD c hcv d hlink)
      · rcases hloc d hd with hdv | hdr
        · exact absurd hcr (bfs_closure members cs [c0] hnd.2 hInvD d hdv c
            (cells_linked_symm members c d hlink))
        · have hcslen : cs.length ≤ n := by
            simp only [List.length_cons] at hlen
            omega
          have hrl : (bfs members cs [c0]).2.length ≤ n :=
            le_trans (bfs_rest_length members cs [c0]) hcslen
          have hrnd := bfs_rest_nodup members cs [c0] hnd.2
          obtain ⟨vs, hvs, hvsu, hvsv⟩ :=
            ihn _ hrl hrnd c d hcr hdr hlink u v hu hv
          refine ⟨vs, ?_, hvsu, hvsv⟩
          simp only [split_loop]
          split
          · exact hvs
          · exact List.mem_cons_of_mem _ hvs

theorem split_loop_linked (members : (Int × Int) → List Vehicle) :
    ∀ (n : Nat) (cells : List (Int × Int)), cells.length ≤ n →
      ∀ vs ∈ split_loop members cells, ∃ c0 : Int × Int, ∀ w ∈ vs,
        ∃ c, w ∈ members c ∧ Relation.ReflTransGen (cells_linked members) c0 c := by
  intro n
  induction n with
  | zero =>
    intro cells hlen vs hvs
    rw [List.length_eq_zero.mp (Nat.le_zero.mp hlen)] at hvs
    simp [split_loop] at hvs
  | succ n ihn =>
    intro cells hlen vs hvs
    cases cells with
    | nil => simp [split_loop] at hvs
    | cons c0 cs =>
      have hcslen : cs.length ≤ n := by
        simp only [List.length_cons] at hlen
        omega
      have hrl : (bfs members cs [c0]).2.length ≤ n :=
        le_trans (bfs_rest_length members cs [c0]) hcslen
      simp only [split_loop] at hvs
      have hhead : ∀ w ∈ (bfs members cs [c0]).1.flatMap members,
          ∃ c, w ∈ members c ∧ Relation.ReflTransGen (cells_linked members) c0 c := by
        intro w hw
        obtain ⟨cc, hcc, hwm⟩ := List.mem_flatMap.mp hw
        refine ⟨cc, hwm, ?_⟩
        refine bfs_vis_linked members (Relation.ReflTransGen (cells_linked members) c0)
          (fun a b ra hab => ra.tail hab) cs [c0] ?_ cc hcc
        intro q hq
        rw [List.mem_singleton] at hq
        rw [hq]
      split at hvs
      · obtain ⟨cx, hcx⟩ := ihn _ hrl vs hvs
        exact ⟨cx, hcx⟩
      · rcases List.mem_cons.mp hvs with h | h
        · rw [h]
          exact ⟨c0, hhead⟩
        · obtain ⟨cx, hcx⟩ := ihn _ hrl vs h
          exact ⟨cx, hcx⟩

theorem insertDesc_perm (a : Cluster) : ∀ l : List Cluster, (insertDesc a l).Perm (a :: l) := by
  intro l
  induction l with
  | nil => exact List.Perm.refl _
  | cons b bs ih =>
    unfold insertDesc
    split
    · exact List.Perm.refl _
    · exact List.Perm.trans (List.Perm.cons b ih) (List.Perm.swap a b bs)

theorem sortBySizeDesc_perm : ∀ l : List Cluster, (sortBySizeDesc l).Perm l := by
  intro l
  induction l with
  | nil => exact List.Perm.refl _
  | cons x xs ih =>
    unfold sortBySizeDesc
    rw [List.foldr_cons]
    exact List.Perm.trans (insertDesc_perm x _) (List.Perm.cons x ih)

/-! ### Cell adjacency from distance -/

theorem floor_cell_le (a b : ℚ) (h : a < b + CELL_SIZE) :
    ⌊a / CELL_SIZE⌋ ≤ ⌊b / CELL_SIZE⌋ + 1 := by
  have hCS : (0 : ℚ) < CELL_SIZE := by norm_num [CELL_SIZE]
  have hdiv : a / CELL_SIZE < b / CELL_SIZE + 1 := by
    rw [show b / CELL_SIZE + 1 = (b + CELL_SIZE) / CELL_SIZE by
      rw [add_div, div_self (ne_of_gt hCS)]]
    exact (div_lt_div_iff_of_pos_right hCS).mpr h
  calc ⌊a / CELL_SIZE⌋ ≤ ⌊b / CELL_SIZE + 1⌋ := Int.floor_le_floor (le_of_lt hdiv)
    _ = ⌊b / CELL_SIZE⌋ + 1 := Int.floor_add_one _

theorem cell_diff_bounds (a b : ℚ) (h : |a - b| < CELL_SIZE) :
    -1 ≤ ⌊a / CELL_SIZE⌋ - ⌊b / CELL_SIZE⌋ ∧ ⌊a / CELL_SIZE⌋ - ⌊b / CELL_SIZE⌋ ≤ 1 := by
  rw [abs_lt] at h
  constructor
  · have := floor_cell_le b a (by linarith)
    omega
  · have := floor_cell_le a b (by linarith)
    omega

theorem mem_SCAN_DELTAS_of_bounds (p : Int × Int)
    (h1 : -1 ≤ p.1) (h2 : p.1 ≤ 1) (h3 : -1 ≤ p.2) (h4 : p.2 ≤ 1) : p ∈ SCAN_DELTAS := by
  obtain ⟨i, j⟩ := p
  simp only [Prod.fst, Prod.snd] at h1 h2 h3 h4
  simp only [SCAN_DELTAS, List.mem_cons, List.not_mem_nil, or_false, Prod.mk.injEq]
  omega

theorem abs_sub_lt_of_sqdist (u v : Vehicle)
    (h : u.get_squared_distance_to_unit v < CELL_SIZE_SQUARED) :
    |u.x - v.x| < CELL_SIZE ∧ |u.y - v.y| < CELL_SIZE := by
  unfold Vehicle.get_squared_distance_to_unit Vehicle.get_squared_distance_to at h
  have hCSQ : CELL_SIZE_SQUARED = CELL_SIZE ^ 2 := by
    norm_num [CELL_SIZE_SQUARED, CELL_SIZE]
  rw [hCSQ] at h
  have hCS : (0 : ℚ) ≤ CELL_SIZE := by norm_num [CELL_SIZE]
  constructor
  · refine abs_lt_of_sq_lt_sq ?_ hCS
    nlinarith [sq_nonneg (u.y - v.y)]
  · refine abs_lt_of_sq_lt_sq ?_ hCS
    nlinarith [sq_nonneg (u.x - v.x)]

theorem opp_mem_cell_vehicles (opp : Nat) (s : TrackerState) (hinv : GridInv opp s)
    (u : Vehicle) (hu : u ∈ s.vehicles) (hop : u.player_id = opp) :
    u ∈ cell_vehicles s (get_cell_index u) ∧ get_cell_index u ∈ nonempty_cells s := by
  obtain ⟨hnd1, -, -, h4⟩ := hinv
  have hentry := h4 u hu hop
  have hfind : s.find? u.id = some u := find?_first_of_nodup s.vehicles hnd1 u hu
  constructor
  · unfold cell_vehicles
    rw [List.mem_filterMap]
    refine ⟨(get_cell_index u, u.id), hentry, ?_⟩
    rw [if_pos rfl]
    exact hfind
  · unfold nonempty_cells
    rw [List.mem_dedup]
    exact List.mem_map_of_mem (fun e => e.1) hentry

/-- Claim C2: from any grid state satisfying the tracker invariant, two
tracked opponent units whose pairwise squared distance is strictly below the
cell-size-squared threshold always land in the same cluster of
`update_clusters`, whatever cells they occupy; and every cluster was built
only from merge steps passing the strict minimum-pairwise-distance guard —
each of its member cells is reachable from the BFS seed cell through a chain
of `cells_linked` edges (3x3 adjacency plus minimum pairwise member distance
strictly below the threshold). -/
theorem claim_C2_clustering_correctness (opp : Nat) (s : TrackerState) (hinv : GridInv opp s) :
    (∀ u v : Vehicle, u ∈ s.vehicles → v ∈ s.vehicles →
        u.player_id = opp → v.player_id = opp →
        u.get_squared_distance_to_unit v < CELL_SIZE_SQUARED →
        ∃ cl ∈ (update_clusters s).clusters, u ∈ cl.vehicles ∧ v ∈ cl.vehicles) ∧
      (∀ cl ∈ (update_clusters s).clusters, ∃ c0 : Int × Int, ∀ w ∈ cl.vehicles,
        ∃ c : Int × Int, w ∈ cell_vehicles s c ∧
          Relation.ReflTransGen (cells_linked (cell_vehicles s)) c0 c) := by
  constructor
  · intro u v hu hv hopu hopv hdist
    obtain ⟨humem, hucell⟩ := opp_mem_cell_vehicles opp s hinv u hu hopu
    obtain ⟨hvmem, hvcell⟩ := opp_mem_cell_vehicles opp s hinv v hv hopv
    obtain ⟨hax, hay⟩ := abs_sub_lt_of_sqdist u v hdist
    have hbx := cell_diff_bounds v.x u.x (by rw [abs_sub_comm]; exact hax)
    have hby := cell_diff_bounds v.y u.y (by rw [abs_sub_comm]; exact hay)
    have hadj : ((get_cell_index v).1 - (get_cell_index u).1,
        (get_cell_index v).2 - (get_cell_index u).2) ∈ SCAN_DELTAS := by
      refine mem_SCAN_DELTAS_of_bounds _ ?_ ?_ ?_ ?_ <;> simp only [get_cell_index] <;> omega
    have hguard := min_distance_lt_of_members (cell_vehicles s)
      (get_cell_index u) (get_cell_index v) u v humem hvmem hdist
    obtain ⟨vs, hvs, hu', hv'⟩ := split_loop_same_cluster (cell_vehicles s)
      (nonempty_cells s).length (nonempty_cells s) (le_refl _) (List.nodup_dedup _)
      _ _ hucell hvcell ⟨hadj, hguard⟩ u v humem hvmem
    refine ⟨mkCluster vs, ?_, hu', hv'⟩
    show mkCluster vs ∈ sortBySizeDesc (split_opponent_vehicles s)
    rw [(sortBySizeDesc_perm _).mem_iff]
    unfold split_opponent_vehicles
    exact List.mem_map_of_mem mkCluster hvs
  · intro cl hcl
    have hcl2 : cl ∈ sortBySizeDesc (split_opponent_vehicles s) := hcl
    rw [(sortBySizeDesc_perm _).mem_iff] at hcl2
    unfold split_opponent_vehicles at hcl2
    rw [List.mem_map] at hcl2
    obtain ⟨vs, hvs, hmk⟩ := hcl2
    obtain ⟨c0, hc0⟩ := split_loop_linked (cell_vehicles s) (nonempty_cells s).length
      (nonempty_cells s) (le_refl _) vs hvs
    refine ⟨c0, ?_⟩
    intro w hw
    rw [← hmk] at hw
    exact hc0 w hw

/-- Witness for C2: two opponent units 10 apart in different 16-unit grid
cells end up in one cluster. -/
theorem claim_C2_clustering_correctness_witness :
    ∃ cl ∈ (update_clusters
        (⟨[⟨1, 2, 10, 10, 100, [], false, 0, .tank, 80, 2⟩,
           ⟨2, 2, 20, 10, 90, [], false, 0, .ifv, 80, 2⟩],
          [((0, 0), 1), ((1, 0), 2)], [], []⟩ : TrackerState)).clusters,
      (⟨1, 2, 10, 10, 100, [], false, 0, .tank, 80, 2⟩ : Vehicle) ∈ cl.vehicles ∧
        (⟨2, 2, 20, 10, 90, [], false, 0, .ifv, 80, 2⟩ : Vehicle) ∈ cl.vehicles := by
  have hc1 : get_cell_index (⟨1, 2, 10, 10, 100, [], false, 0, .tank, 80, 2⟩ : Vehicle) =
      ((0 : Int), (0 : Int)) := by
    norm_num [get_cell_index, CELL_SIZE]
  have hc2 : get_cell_index (⟨2, 2, 20, 10, 90, [], false, 0, .ifv, 80, 2⟩ : Vehicle) =
      ((1 : Int), (0 : Int)) := by
    norm_num [get_cell_index, CELL_SIZE]
  have hinv : GridInv 2
      (⟨[⟨1, 2, 10, 10, 100, [], false, 0, .tank, 80, 2⟩,
         ⟨2, 2, 20, 10, 90, [], false, 0, .ifv, 80, 2⟩],
        [((0, 0), 1), ((1, 0), 2)], [], []⟩ : TrackerState) := by
    refine ⟨by decide, by decide, ?_, ?_⟩
    · intro e he
      simp only [List.mem_cons, List.not_mem_nil, or_false] at he
      rcases he with rfl | rfl
      · exact ⟨⟨1, 2, 10, 10, 100, [], false, 0, .tank, 80, 2⟩, by decide, rfl, hc1⟩
      · exact ⟨⟨2, 2, 20, 10, 90, [], false, 0, .ifv, 80, 2⟩, by decide, rfl, hc2⟩
    · intro v hv hop
      simp only [List.mem_cons, List.not_mem_nil, or_false] at hv
      rcases hv with rfl | rfl
      · rw [hc1]
        simp
      · rw [hc2]
        simp
  refine (claim_C2_clustering_correctness 2 _ hinv).1
    (⟨1, 2, 10, 10, 100, [], false, 0, .tank, 80, 2⟩ : Vehicle)
    (⟨2, 2, 20, 10, 90, [], false, 0, .ifv, 80, 2⟩ : Vehicle)
    (List.mem_cons_self _ _) (List.mem_cons_of_mem _ (List.mem_cons_self _ _)) rfl rfl ?_
  norm_num [Vehicle.get_squared_distance_to_unit, Vehicle.get_squared_distance_to,
    CELL_SIZE_SQUARED, CELL_SIZE]

end CodeWars
